import Mathlib

/-!
Verification development for the SyncNotionCalendar reconciliation core.

The Python source (src/Database.py, src/CalendarClient.py, src/notionClient.py)
is shallowly embedded below.  Tables (pandas DataFrames keyed by the `id`
index) become association lists `List (String × _)`.  Datetimes become a
`PyDateTime` structure holding a date and a time-of-day as integers; a pandas
null (NaT / NaN / None) becomes `none` at the `Option` level.  The pandas
elementwise comparison semantics used by `Database.get_modified` and by the
duplicate check of `Database.add_events` are made explicit:

* on datetime64 columns a null is NaT, so `a != b` is True whenever either
  side is NaT (`dtNe` below) and `a == b` is False whenever either side is
  NaT (`pyEqDt` below);
* on the object-dtype `title` column the values coming from the live
  snapshot are Python `None`, and `None != None` is False, so the title
  comparison is plain `Option` disequality.

Side effects (calendar AppleScript calls, snapshot saves, the Notion fetch)
are modelled by an explicit state `St` carrying the stored table, call
counters for the outcome oracles of the environment `Env`, and an event
trace.  An uncaught Python exception is modelled by the `exn` flag: once it
is set every remaining step is skipped, which mirrors propagation out of
`Database.run`.
-/

/-- Python datetime, split into a date part and a time-of-day part. -/
structure PyDateTime where
  date : Int
  time : Int
deriving DecidableEq, Repr

/-- Row of the stored snapshot table `Database.df` (columns id, last_edit,
start_date, end_date, title, event_id; the id is the association-list key). -/
structure Row where
  last_edit : Option PyDateTime
  start_date : Option PyDateTime
  end_date : Option PyDateTime
  title : Option String
  event_id : Option String
deriving DecidableEq, Repr

/-- Row of the live snapshot produced by `Database.get_live` from
`Card.to_dict` (columns id, last_edit, start_date, end_date, title, url,
description; the id is the association-list key). -/
structure LiveRow where
  last_edit : Option PyDateTime
  start_date : Option PyDateTime
  end_date : Option PyDateTime
  title : Option String
  url : List Char
  description : List Char
deriving DecidableEq, Repr

/-- Stored snapshot table, keyed by id. -/
abbrev StoredTable := List (String × Row)

/-- Live snapshot table, keyed by id. -/
abbrev LiveTable := List (String × LiveRow)

/-- Lookup of a row by id (`self.df.loc[id]`). -/
def findRow : StoredTable → String → Option Row
  | [], _ => none
  | (k, r) :: rest, id => if k = id then some r else findRow rest id

/-- Lookup of a live row by id (`current.loc[id]`). -/
def findLive : LiveTable → String → Option LiveRow
  | [], _ => none
  | (k, l) :: rest, id => if k = id then some l else findLive rest id

/-- Keys of the stored table (`set(stored.index)` before the set algebra). -/
def keysR (stored : StoredTable) : List String := stored.map Prod.fst

/-- Keys of the live table (`set(current.index)` before the set algebra). -/
def keysL (live : LiveTable) : List String := live.map Prod.fst

/-- Row drop by id (`self.df.drop(id)` in `Database.remove_events`). -/
def eraseKey (stored : StoredTable) (id : String) : StoredTable :=
  stored.filter (fun p => ! decide (p.1 = id))

/-- In-place row replacement (`self.df.loc[id] = modified_event` in
`Database.modify_events`, where the id is already present). -/
def updateRow (stored : StoredTable) (id : String) (r : Row) : StoredTable :=
  stored.map (fun p => if p.1 = id then (id, r) else p)

/-- Pandas `!=` on datetime64 columns: True whenever either side is NaT,
otherwise value disequality.  Used by the filters of `Database.get_modified`. -/
def dtNe (a b : Option PyDateTime) : Bool :=
  match a, b with
  | some x, some y => decide (x ≠ y)
  | _, _ => true

/-- Pandas `==` on datetime64 columns: False whenever either side is NaT,
otherwise value equality.  Used by the duplicate check of
`Database.add_events`. -/
def pyEqDt (a b : Option PyDateTime) : Bool :=
  match a, b with
  | some x, some y => decide (x = y)
  | _, _ => false

/-- Reconciler: `Database.get_new` (lines 254 to 271).  Source computes
`set(current.index) - set(stored.index)`; the arbitrary Python set iteration
order is determinized here as the live table order. -/
def get_new (stored : StoredTable) (live : LiveTable) : List String :=
  (keysL live).filter (fun id => (findRow stored id).isNone)

/-- Reconciler: `Database.get_deleted` (lines 172 to 188).  Source computes
`set(stored.index) - set(current.index)`. -/
def get_deleted (stored : StoredTable) (live : LiveTable) : List String :=
  (keysR stored).filter (fun id => (findLive live id).isNone)

/-- Filter of `Database.get_modified` (lines 221 to 223) applied to one
joined row.  The stored table is left-joined with the live table, so an id
present only in the stored side has all live columns NaT; on such a row the
null test of line 223 (`pd.isnull(_joined.last_edit)`) is true and the row is
dropped, which the `none` branch reflects. -/
def modifiedFilter (r : Row) (lv : Option LiveRow) : Bool :=
  match lv with
  | none => false
  | some l =>
      dtNe r.last_edit l.last_edit
        && (decide (r.title ≠ l.title) || dtNe r.start_date l.start_date
              || dtNe r.end_date l.end_date)
        && l.last_edit.isSome && r.last_edit.isSome

/-- Reconciler: `Database.get_modified` (lines 205 to 231). -/
def get_modified (stored : StoredTable) (live : LiveTable) : List String :=
  (stored.filter (fun p => modifiedFilter p.2 (findLive live p.1))).map Prod.fst

/-- Reconciler: `Database.get_outdated` (lines 159 to 169): stored rows whose
end date is strictly before today.  `NaT < date` is False in pandas, hence
the `none` branch. -/
def get_outdated (stored : StoredTable) (today : Int) : List String :=
  (stored.filter (fun p =>
    match p.2.end_date with
    | some d => decide (d.date < today)
    | none => false)).map Prod.fst

/-- Observable event emitted by a sync step: a calendar AppleScript call, a
snapshot save, or a logged skip inside `Database.add_events`. -/
inductive Ev
  /-- Calendar delete call (`CalendarClient.delete_event`); the flag records
  whether the AppleScript call succeeded.  A failure is only logged (the
  re-raise on line 140 of CalendarClient.py is commented out). -/
  | calDelete (event_id : Option String) (ok : Bool)
  /-- Calendar add call that returned without raising
  (`CalendarClient.add_event`); `none` models an empty AppleScript output,
  where the event was created but no handle came back. -/
  | calAdd (event_id : Option String)
  /-- Calendar add call that raised
  (`CalendarClient.add_event` re-raises AppleScript errors). -/
  | calAddFail
  /-- Snapshot save (`Database.save`, a full-table csv overwrite). -/
  | save
  /-- Logged skip of one entry in `Database.add_events` (duplicate
  title/dates, or id already present). -/
  | skipped (id : String)
deriving DecidableEq, Repr

/-- Outcome of one `CalendarClient.add_event` call, decided by the
environment oracle: success with a handle, success with no handle in the
AppleScript output, or a raised exception. -/
inductive AddOutcome
  | ok (eid : String)
  | noId
  | err
deriving DecidableEq, Repr

/-- Environment of one reconciliation run: the live snapshot the Notion API
returns, and outcome oracles for the n-th calendar add and delete calls. -/
structure Env where
  live : LiveTable
  addRes : Nat → AddOutcome
  delOk : Nat → Bool

/-- Mutable state of a `Database` object during a run: the stored table
`self.df`, counters of calendar and fetch calls made so far (indices into the
oracles of `Env`), the counters kept by `Database.add_events`, the event
trace, and the uncaught-exception flag. -/
structure St where
  stored : StoredTable
  addN : Nat
  delN : Nat
  fetchN : Nat
  errC : Nat
  succC : Nat
  trace : List Ev
  exn : Bool
deriving Repr

/-- Stored row written back by `self.df.loc[id] = s` when `s` is a live row
carrying an `event_id`: the assignment aligns on the stored columns, so url
and description are dropped. -/
def toRow (l : LiveRow) (eid : Option String) : Row :=
  { last_edit := l.last_edit, start_date := l.start_date, end_date := l.end_date,
    title := l.title, event_id := eid }

/-- Duplicate check of `Database.add_events` (lines 293 to 297): a stored row
with equal title, start_date and end_date already exists.  Dates compare with
pandas `==` (never true on NaT), the object-dtype title with Python equality. -/
def duplicateExists (stored : StoredTable) (l : LiveRow) : Bool :=
  stored.any (fun p =>
    decide (p.2.title = l.title) && pyEqDt p.2.start_date l.start_date
      && pyEqDt p.2.end_date l.end_date)

/-- Loop of `Database.add_events` (lines 290 to 338) over the selected live
rows.  The per-entry try/except catches every failure, counts it in
`error_count` and moves on, so the loop never raises; a successful addition
appends the row and saves at once (line 330). -/
def add_events_loop (env : Env) (s : St) : List (String × LiveRow) → St
  | [] => s
  | (id, l) :: rest =>
    if duplicateExists s.stored l then
      add_events_loop env { s with trace := s.trace ++ [Ev.skipped id] } rest
    else if (findRow s.stored id).isSome then
      add_events_loop env { s with trace := s.trace ++ [Ev.skipped id] } rest
    else
      match env.addRes s.addN with
      | AddOutcome.err =>
          add_events_loop env
            { s with addN := s.addN + 1, errC := s.errC + 1,
                     trace := s.trace ++ [Ev.calAddFail] } rest
      | AddOutcome.noId =>
          add_events_loop env
            { s with addN := s.addN + 1, errC := s.errC + 1,
                     trace := s.trace ++ [Ev.calAdd none] } rest
      | AddOutcome.ok eid =>
          add_events_loop env
            { s with addN := s.addN + 1, succC := s.succC + 1,
                     stored := s.stored ++ [(id, toRow l (some eid))],
                     trace := s.trace ++ [Ev.calAdd (some eid), Ev.save] } rest

/-- Row selection `to_add = current.loc[list_id]` of `Database.add_events`
(line 286): the rows in list order, or a KeyError when an id is missing. -/
def selectRows (live : LiveTable) : List String → Option (List (String × LiveRow))
  | [] => some []
  | id :: rest =>
    match findLive live id, selectRows live rest with
    | some l, some rs => some ((id, l) :: rs)
    | _, _ => none

/-- `Database.add_events` (lines 273 to 342) with the live table already
resolved.  An empty id list returns early (line 280); a missing id raises
KeyError at the `current.loc[list_id]` selection, before any entry is
processed. -/
def add_events (env : Env) (s : St) (list_id : List String) (current : LiveTable) : St :=
  if s.exn then s
  else if list_id.isEmpty then s
  else
    match selectRows current list_id with
    | none => { s with exn := true }
    | some rows => add_events_loop env s rows

/-- Loop of `Database.remove_events` (lines 197 to 201): look up the stored
event handle (KeyError when the id is absent), issue the calendar delete
(whose failure is only logged inside `CalendarClient.delete_event`), drop the
row.  No save happens inside the loop. -/
def remove_events_loop (env : Env) (s : St) : List String → St
  | [] => s
  | id :: rest =>
    if s.exn then s
    else
      match findRow s.stored id with
      | none => { s with exn := true }
      | some r =>
          remove_events_loop env
            { s with delN := s.delN + 1,
                     stored := eraseKey s.stored id,
                     trace := s.trace ++ [Ev.calDelete r.event_id (env.delOk s.delN)] } rest

/-- `Database.remove_events` (lines 191 to 202): the loop, then a single save
after the whole list (line 202), which an uncaught KeyError skips. -/
def remove_events (env : Env) (s : St) (list_id : List String) : St :=
  let s2 := remove_events_loop env s list_id
  if s2.exn then s2 else { s2 with trace := s2.trace ++ [Ev.save] }

/-- Loop of `Database.modify_events` (lines 243 to 250) with the live table
already resolved.  There is no try/except here: a KeyError on the lookups or
an exception out of `CalendarClient.add_event` propagates and ends the loop.
A completed entry replaces the stored row with the live row carrying the new
handle (possibly `None` when the add returned no handle) and saves. -/
def modify_events_loop (env : Env) (s : St) (current : LiveTable) : List String → St
  | [] => s
  | id :: rest =>
    if s.exn then s
    else
      match findLive current id with
      | none => { s with exn := true }
      | some l =>
          match findRow s.stored id with
          | none => { s with exn := true }
          | some r =>
              let s1 := { s with delN := s.delN + 1,
                                 trace := s.trace ++ [Ev.calDelete r.event_id (env.delOk s.delN)] }
              match env.addRes s1.addN with
              | AddOutcome.err =>
                  { s1 with addN := s1.addN + 1, exn := true,
                            trace := s1.trace ++ [Ev.calAddFail] }
              | AddOutcome.noId =>
                  modify_events_loop env
                    { s1 with addN := s1.addN + 1,
                              stored := updateRow s1.stored id (toRow l none),
                              trace := s1.trace ++ [Ev.calAdd none, Ev.save] } current rest
              | AddOutcome.ok eid =>
                  modify_events_loop env
                    { s1 with addN := s1.addN + 1,
                              stored := updateRow s1.stored id (toRow l (some eid)),
                              trace := s1.trace ++ [Ev.calAdd (some eid), Ev.save] } current rest

/-- `Database.modify_events` (lines 234 to 250) with the live table already
resolved. -/
def modify_events (env : Env) (s : St) (list_id : List String) (current : LiveTable) : St :=
  modify_events_loop env s current list_id

/-- `Database.get_live` (lines 145 to 157): one Notion fetch, counted. -/
def get_live (env : Env) (s : St) : LiveTable × St :=
  (env.live, { s with fetchN := s.fetchN + 1 })

/-- Resolution of the `current=None` default parameter shared by
`Database.get_new`, `Database.get_deleted`, `Database.get_modified`,
`Database.add_events` and `Database.modify_events`: a `None` argument
triggers a fresh `get_live` fetch, anything else is used as passed. -/
def resolveCurrent (env : Env) (s : St) : Option LiveTable → LiveTable × St
  | none => get_live env s
  | some c => (c, s)

/-- `Database.get_new` with its optional `current` parameter. -/
def get_new_m (env : Env) (s : St) (current : Option LiveTable) : List String × St :=
  let (c, s) := resolveCurrent env s current
  (get_new s.stored c, s)

/-- `Database.get_deleted` with its optional `current` parameter. -/
def get_deleted_m (env : Env) (s : St) (current : Option LiveTable) : List String × St :=
  let (c, s) := resolveCurrent env s current
  (get_deleted s.stored c, s)

/-- `Database.get_modified` with its optional `current` parameter. -/
def get_modified_m (env : Env) (s : St) (current : Option LiveTable) : List String × St :=
  let (c, s) := resolveCurrent env s current
  (get_modified s.stored c, s)

/-- `Database.add_events` with its optional `current` parameter. -/
def add_events_m (env : Env) (s : St) (list_id : List String)
    (current : Option LiveTable) : St :=
  if s.exn then s
  else
    let (c, s) := resolveCurrent env s current
    add_events env s list_id c

/-- `Database.modify_events` with its optional `current` parameter. -/
def modify_events_m (env : Env) (s : St) (list_id : List String)
    (current : Option LiveTable) : St :=
  if s.exn then s
  else
    let (c, s) := resolveCurrent env s current
    modify_events env s list_id c

/-- `Database.run` (lines 344 to 362): fetch the live snapshot once, then add
new events, remove deleted events, modify modified events, passing
`current=live` to every classification and apply step (`remove_events` takes
no live argument at all).  The outdated-eviction block (lines 347 to 350) is
commented out in the source, so `today` is never consulted. -/
def run (env : Env) (today : Int) (s : St) : St :=
  let (live, s) := get_live env s
  let (id_news, s) := get_new_m env s (some live)
  let s := add_events_m env s id_news (some live)
  let (id_deleted, s) := get_deleted_m env s (some live)
  let s := remove_events env s id_deleted
  let (id_modified, s) := get_modified_m env s (some live)
  modify_events_m env s id_modified (some live)

/-- The three phases of `Database.run` written out with the raw phase
functions: one fetch, then additions, removals and modifications in that
order, every classification taken against the single live snapshot. -/
def runPhases (env : Env) (s : St) : St :=
  let live := env.live
  let s1 : St := { s with fetchN := s.fetchN + 1 }
  let s2 := add_events env s1 (get_new s1.stored live) live
  let s3 := remove_events env s2 (get_deleted s2.stored live)
  modify_events env s3 (get_modified s3.stored live) live

/-- Truncation step of `CalendarClient.applescript_escape` (lines 26 to 27):
inputs longer than `max_length` keep their first `max_length` characters and
get a three-dot marker appended. -/
def truncatePy (maxLength : Nat) (s : List Char) : List Char :=
  if s.length > maxLength then s.take maxLength ++ ['.', '.', '.'] else s

/-- Python `s.replace(chr(92) + forward-n, space)` specialised to the first
replace of line 29 of CalendarClient.py: each two-character literal
backslash-n sequence becomes one space, scanning left to right without
overlap. -/
def replaceLitBackslashN : List Char → List Char
  | [] => []
  | [c] => [c]
  | c1 :: c2 :: rest =>
    if c1 = '\\' ∧ c2 = 'n' then ' ' :: replaceLitBackslashN rest
    else c1 :: replaceLitBackslashN (c2 :: rest)

/-- Python `s.replace(newline, space)`, the second replace of line 29. -/
def replaceNewline : List Char → List Char
  | [] => []
  | c :: rest =>
    if c = '\n' then ' ' :: replaceNewline rest else c :: replaceNewline rest

/-- Python `s.replace(carriage-return, empty)`, the third replace of line 29:
carriage returns are deleted, not replaced by a space. -/
def removeCR : List Char → List Char
  | [] => []
  | c :: rest => if c = '\r' then removeCR rest else c :: removeCR rest

/-- Python `s.replace(single-backslash, double-backslash)`, first replace of
line 30. -/
def escapeBackslash : List Char → List Char
  | [] => []
  | c :: rest =>
    if c = '\\' then '\\' :: '\\' :: escapeBackslash rest
    else c :: escapeBackslash rest

/-- Python `s.replace(quote, backslash-quote)`, second replace of line 30. -/
def escapeQuote : List Char → List Char
  | [] => []
  | c :: rest =>
    if c = '\x22' then '\\' :: '\x22' :: escapeQuote rest
    else c :: escapeQuote rest

/-- `CalendarClient.applescript_escape` (lines 20 to 30): truncate, then the
three newline replaces of line 29 in order, then the two escaping replaces of
line 30 in order. -/
def applescript_escape (maxLength : Nat) (s : List Char) : List Char :=
  escapeQuote (escapeBackslash (removeCR (replaceNewline (replaceLitBackslashN
    (truncatePy maxLength s)))))

/-- Single-pass description of the three replaces of line 29 as the source
performs them: a literal backslash-n pair or a real newline becomes one
space, a carriage return is deleted, everything else is kept. -/
def collapseSpec : List Char → List Char
  | [] => []
  | [c] => if c = '\n' then [' '] else if c = '\r' then [] else [c]
  | c1 :: c2 :: rest =>
    if c1 = '\\' ∧ c2 = 'n' then ' ' :: collapseSpec rest
    else if c1 = '\n' then ' ' :: collapseSpec (c2 :: rest)
    else if c1 = '\r' then collapseSpec (c2 :: rest)
    else c1 :: collapseSpec (c2 :: rest)

/-- Single-pass charwise description of the claimed newline handling, written
from the claim text: every embedded newline and every carriage return is
collapsed to a single space; nothing is said there about literal backslash-n
pairs, so a backslash is an ordinary character here. -/
def collapseClaim : List Char → List Char
  | [] => []
  | c :: rest =>
    if c = '\n' ∨ c = '\r' then ' ' :: collapseClaim rest
    else c :: collapseClaim rest

/-- Charwise escaping: every backslash doubled, every double quote preceded
by a backslash. -/
def escSpec : List Char → List Char
  | [] => []
  | c :: rest =>
    if c = '\\' then '\\' :: '\\' :: escSpec rest
    else if c = '\x22' then '\\' :: '\x22' :: escSpec rest
    else c :: escSpec rest

/-- Escaping function the claim describes: truncate, collapse newlines and
carriage returns to spaces, escape every backslash and double quote. -/
def claimEscape (maxLength : Nat) (s : List Char) : List Char :=
  escSpec (collapseClaim (truncatePy maxLength s))

/-- Scanner state machine for an unescaped double quote: a backslash escapes
the character after it; a double quote reached outside such an escape is
unescaped.  The flag says whether the current character is escaped. -/
def hasUnescapedQuoteAux : Bool → List Char → Bool
  | _, [] => false
  | esc, c :: rest =>
    if esc then hasUnescapedQuoteAux false rest
    else if c = '\\' then hasUnescapedQuoteAux true rest
    else if c = '\x22' then true
    else hasUnescapedQuoteAux false rest

/-- Whether a string contains a double quote that no backslash escapes. -/
def hasUnescapedQuote (s : List Char) : Bool := hasUnescapedQuoteAux false s

/-- AppleScript command assembled by `CalendarClient.add_event` (lines 32 to
96), reduced to its decision content: the all-day flag, the effective start
and end datetime written into the date literals, the escaped summary, and
whether the optional url and description lines are attached.  Dates are day
numbers (the strptime and strftime round trips through the string formats
are elided); times of day are kept as the literal strings the source
compares against. -/
structure AddCmd where
  allday : Bool
  startDay : Int
  startTime : String
  endDay : Int
  endTime : String
  summary : List Char
  hasUrl : Bool
  hasDesc : Bool
deriving DecidableEq, Repr

/-- Pure command-building part of `CalendarClient.add_event` (lines 49 to
96).  When start and end time are both the literal 00:00:00 the event is
all-day and one day is added to the end date (lines 57 to 63); otherwise an
end time of 00:00:00 is coerced to 23:59:59 (lines 66 to 67).  The url and
description lines are only attached when the strings are non-empty (lines 84
to 88). -/
def add_event_cmd (title : List Char) (startDay endDay : Int)
    (startTime endTime : String) (url desc : List Char) : AddCmd :=
  let isAllDay := startTime = "00:00:00" ∧ endTime = "00:00:00"
  if isAllDay then
    { allday := true, startDay := startDay, startTime := startTime,
      endDay := endDay + 1, endTime := "00:00:00",
      summary := applescript_escape 900 title,
      hasUrl := ! url.isEmpty, hasDesc := ! desc.isEmpty }
  else
    let endTime2 := if endTime = "00:00:00" then "23:59:59" else endTime
    { allday := false, startDay := startDay, startTime := startTime,
      endDay := endDay, endTime := endTime2,
      summary := applescript_escape 900 title,
      hasUrl := ! url.isEmpty, hasDesc := ! desc.isEmpty }

/-- Title lookup of `Database._get_card_for_calendar` (line 61): the Python
`getattr(card_serie, 'title', 'Untitled Event')`.  The outer `Option` is
attribute presence on the series; the inner `Option String` is the stored
value, `none` being a Python None or NaN title.  The fallback fires only
when the attribute itself is absent. -/
def card_title (titleAttr : Option (Option String)) : Option String :=
  match titleAttr with
  | none => some "Untitled Event"
  | some v => v

/-- Title extraction of `Card.__init__` in notionClient.py (lines 36 to 38):
the title property is the list of plain-text fragments; an empty list leaves
the title as None, a non-empty one takes the first fragment. -/
def cardTitleFromNotion (titleTexts : List String) : Option String :=
  if titleTexts.length > 0 then titleTexts.head? else none

/-- Count of save events in a trace. -/
def countSave (tr : List Ev) : Nat :=
  tr.countP (fun e => decide (e = Ev.save))

/-- Successful calendar mutation: a delete whose AppleScript call succeeded,
or an add call that returned (with or without a handle the event exists). -/
def isMutEv : Ev → Bool
  | Ev.calDelete _ ok => ok
  | Ev.calAdd _ => true
  | _ => false

/-- Count of successful calendar mutations in a trace. -/
def countMut (tr : List Ev) : Nat := tr.countP isMutEv

/-- Count of skip events in a trace. -/
def countSkip (tr : List Ev) : Nat :=
  tr.countP (fun e => match e with | Ev.skipped _ => true | _ => false)

/-- Count of calendar delete events in a trace. -/
def countDel (tr : List Ev) : Nat :=
  tr.countP (fun e => match e with | Ev.calDelete _ _ => true | _ => false)

/-- Running scan of how many successful calendar mutations have happened
since the last save, returning the maximum that lag ever reached starting
from `cur`.  The persisted table is exactly that many mutations behind the
calendar at the corresponding moment of the phase. -/
def maxLagAux (cur : Nat) : List Ev → Nat
  | [] => cur
  | e :: rest =>
    if e = Ev.save then max cur (maxLagAux 0 rest)
    else if isMutEv e then max (cur + 1) (maxLagAux (cur + 1) rest)
    else max cur (maxLagAux cur rest)

/-- Maximum number of unpersisted successful calendar mutations over a trace. -/
def maxLag (tr : List Ev) : Nat := maxLagAux 0 tr

/-- Count of add calls recorded as failures by `Database.add_events`: a
raised add, or an add that returned no handle (the `if not event_id` raise
of line 318, caught by the same per-entry handler). -/
def countFailAdd (tr : List Ev) : Nat :=
  tr.countP (fun e =>
    match e with
    | Ev.calAddFail => true
    | Ev.calAdd none => true
    | _ => false)

/-- Count of add calls that returned a handle. -/
def countOkAdd (tr : List Ev) : Nat :=
  tr.countP (fun e =>
    match e with
    | Ev.calAdd (some _) => true
    | _ => false)

/-- State of a `Database` object without the event trace, used to state that
a computation is insensitive to calendar delete outcomes (which only show up
in the trace). -/
def stripTrace (s : St) : StoredTable × Nat × Nat × Nat × Nat × Nat × Bool :=
  (s.stored, s.addN, s.delN, s.fetchN, s.errC, s.succC, s.exn)

/-- Row-level modification test as the claim amends it: last edit differs,
at least one of title, start date, end date differs where a date that is
null on either side always counts as differing, and neither last edit is
null. -/
def modifiedAmendedRow (r : Row) (l : LiveRow) : Bool :=
  decide (r.last_edit ≠ l.last_edit)
    && (decide (r.title ≠ l.title) || dtNe r.start_date l.start_date
          || dtNe r.end_date l.end_date)
    && r.last_edit.isSome && l.last_edit.isSome

/-- Modification test as the claim amends it, lifted to tables. -/
def modifiedAmendedB (stored : StoredTable) (live : LiveTable) (id : String) : Bool :=
  match findRow stored id, findLive live id with
  | some r, some l => modifiedAmendedRow r l
  | _, _ => false

/-- Modification test exactly as the claim states it: both present, last
edit differs, at least one of title, start date, end date differs (plain
value disequality, so two null dates are equal), and neither last edit is
null. -/
def modifiedClaimB (stored : StoredTable) (live : LiveTable) (id : String) : Bool :=
  match findRow stored id, findLive live id with
  | some r, some l =>
      decide (r.last_edit ≠ l.last_edit)
        && (decide (r.title ≠ l.title) || decide (r.start_date ≠ l.start_date)
              || decide (r.end_date ≠ l.end_date))
        && decide (r.last_edit ≠ none) && decide (l.last_edit ≠ none)
  | _, _ => false

/-- Fresh `Database` state over a given stored table: no calls made yet,
empty trace, no pending exception. -/
def initSt (stored : StoredTable) : St :=
  { stored := stored, addN := 0, delN := 0, fetchN := 0, errC := 0, succC := 0,
    trace := [], exn := false }

/-- Example stored row with handle e1. -/
def exRow1 : Row :=
  { last_edit := some ⟨1, 0⟩, start_date := some ⟨10, 0⟩, end_date := some ⟨11, 0⟩,
    title := some "T1", event_id := some "e1" }

/-- Example stored row with handle e2. -/
def exRow2 : Row :=
  { last_edit := some ⟨2, 0⟩, start_date := some ⟨12, 0⟩, end_date := some ⟨13, 0⟩,
    title := some "T2", event_id := some "e2" }

/-- Example stored table with two rows. -/
def exStored2 : StoredTable := [("A", exRow1), ("B", exRow2)]

/-- Example live row builder. -/
def mkLive (le : Int) (ti : String) : LiveRow :=
  { last_edit := some ⟨le, 0⟩, start_date := some ⟨10, 0⟩, end_date := some ⟨11, 0⟩,
    title := some ti, url := [], description := [] }

/-- Example live table in which both example ids changed their titles and
their last edit stamps. -/
def exLive2 : LiveTable := [("A", mkLive 5 "U1"), ("B", mkLive 6 "U2")]

/-- Environment whose calendar calls all succeed. -/
def envAllOk : Env :=
  { live := exLive2, addRes := fun _ => AddOutcome.ok "e", delOk := fun _ => true }

/-- Environment whose calendar delete calls all fail (and are logged). -/
def envDelFail : Env :=
  { live := exLive2, addRes := fun _ => AddOutcome.ok "e", delOk := fun _ => false }

/-- Environment whose calendar add calls all raise. -/
def envAddErr : Env :=
  { live := exLive2, addRes := fun _ => AddOutcome.err, delOk := fun _ => true }

/-- Environment for the idempotence witness: one live entry, empty store. -/
def envOneNew : Env :=
  { live := [("A", mkLive 5 "T1")], addRes := fun _ => AddOutcome.ok "e",
    delOk := fun _ => true }

/-- Stored table whose only row has a null (NaT) start date. -/
def natStored : StoredTable :=
  [("A", { last_edit := some ⟨1, 0⟩, start_date := none, end_date := some ⟨11, 0⟩,
           title := some "T", event_id := some "e1" })]

/-- Live table whose only row has the same null start date and dates and
title as `natStored`, but a different last edit stamp. -/
def natLive : LiveTable :=
  [("A", { last_edit := some ⟨2, 0⟩, start_date := none, end_date := some ⟨11, 0⟩,
           title := some "T", url := [], description := [] })]

/-- Stored table for the idempotence counterexample: one row X titled T. -/
def c4Stored : StoredTable :=
  [("X", { last_edit := some ⟨1, 0⟩, start_date := some ⟨10, 0⟩, end_date := some ⟨11, 0⟩,
           title := some "T", event_id := some "eX" })]

/-- Live table for the idempotence counterexample: X was retitled to Tv2,
and a new entry Y carries the old title T with the same dates as X. -/
def c4Live : LiveTable :=
  [("X", { last_edit := some ⟨2, 0⟩, start_date := some ⟨10, 0⟩, end_date := some ⟨11, 0⟩,
           title := some "Tv2", url := [], description := [] }),
   ("Y", { last_edit := some ⟨3, 0⟩, start_date := some ⟨10, 0⟩, end_date := some ⟨11, 0⟩,
           title := some "T", url := [], description := [] })]

/-- Environment for the idempotence counterexample: all calendar calls
succeed and the live snapshot never changes. -/
def envC4 : Env :=
  { live := c4Live, addRes := fun _ => AddOutcome.ok "e", delOk := fun _ => true }

theorem findRow_eq_none_iff (stored : StoredTable) (id : String) :
    findRow stored id = none ↔ id ∉ keysR stored := by
  induction stored with
  | nil => simp [findRow, keysR]
  | cons p rest ih =>
    obtain ⟨k, r⟩ := p
    by_cases h : k = id
    · subst h; simp [findRow, keysR]
    · have hne : id ≠ k := fun hh => h hh.symm
      simp [findRow, keysR, h, hne, ih]

theorem findLive_eq_none_iff (live : LiveTable) (id : String) :
    findLive live id = none ↔ id ∉ keysL live := by
  induction live with
  | nil => simp [findLive, keysL]
  | cons p rest ih =>
    obtain ⟨k, l⟩ := p
    by_cases h : k = id
    · subst h; simp [findLive, keysL]
    · have hne : id ≠ k := fun hh => h hh.symm
      simp [findLive, keysL, h, hne, ih]

theorem mem_get_new_iff (stored : StoredTable) (live : LiveTable) (id : String) :
    id ∈ get_new stored live ↔ id ∈ keysL live ∧ id ∉ keysR stored := by
  simp [get_new, List.mem_filter, Option.isNone_iff_eq_none, findRow_eq_none_iff]

theorem mem_get_deleted_iff (stored : StoredTable) (live : LiveTable) (id : String) :
    id ∈ get_deleted stored live ↔ id ∈ keysR stored ∧ id ∉ keysL live := by
  simp [get_deleted, List.mem_filter, Option.isNone_iff_eq_none, findLive_eq_none_iff]

theorem mem_keysR_iff_findRow_isSome (stored : StoredTable) (id : String) :
    id ∈ keysR stored ↔ (findRow stored id).isSome := by
  rcases h : findRow stored id with _ | r
  · simp [(findRow_eq_none_iff stored id).mp h]
  · simp only [Option.isSome_some, iff_true]
    by_contra hmem
    exact absurd ((findRow_eq_none_iff stored id).mpr hmem) (by simp [h])

theorem mem_keysL_iff_findLive_isSome (live : LiveTable) (id : String) :
    id ∈ keysL live ↔ (findLive live id).isSome := by
  rcases h : findLive live id with _ | l
  · simp [(findLive_eq_none_iff live id).mp h]
  · simp only [Option.isSome_some, iff_true]
    by_contra hmem
    exact absurd ((findLive_eq_none_iff live id).mpr hmem) (by simp [h])

theorem mem_keysR_of_mem {stored : StoredTable} {id : String} {r : Row}
    (h : (id, r) ∈ stored) : id ∈ keysR stored := by
  exact List.mem_map.mpr ⟨(id, r), h, rfl⟩

theorem findRow_some_mem {stored : StoredTable} {id : String} {r : Row}
    (h : findRow stored id = some r) : (id, r) ∈ stored := by
  induction stored with
  | nil => simp [findRow] at h
  | cons p rest ih =>
    obtain ⟨k, r0⟩ := p
    by_cases hk : k = id
    · subst hk
      simp [findRow] at h
      subst h
      exact List.mem_cons_self _ _
    · simp [findRow, hk] at h
      exact List.mem_cons_of_mem _ (ih h)

theorem findRow_eq_of_mem_nodup {stored : StoredTable} {id : String} {r : Row}
    (hnd : (keysR stored).Nodup) (h : (id, r) ∈ stored) :
    findRow stored id = some r := by
  induction stored with
  | nil => simp at h
  | cons p rest ih =>
    obtain ⟨k, r0⟩ := p
    simp only [keysR, List.map_cons, List.nodup_cons] at hnd
    rcases List.mem_cons.mp h with h1 | h1
    · cases h1
      simp [findRow]
    · have hk : k ≠ id := by
        intro hkk
        subst hkk
        exact hnd.1 (mem_keysR_of_mem h1)
      rw [show findRow ((k, r0) :: rest) id = findRow rest id by simp [findRow, hk]]
      exact ih hnd.2 h1

theorem eraseKey_cons_self {k : String} {r : Row} {rest : StoredTable} {id : String}
    (hk : k = id) : eraseKey ((k, r) :: rest) id = eraseKey rest id := by
  simp [eraseKey, List.filter_cons, hk]

theorem eraseKey_cons_other {k : String} {r : Row} {rest : StoredTable} {id : String}
    (hk : k ≠ id) : eraseKey ((k, r) :: rest) id = (k, r) :: eraseKey rest id := by
  simp [eraseKey, List.filter_cons, hk]

theorem findRow_eraseKey_self (stored : StoredTable) (id : String) :
    findRow (eraseKey stored id) id = none := by
  induction stored with
  | nil => rfl
  | cons p rest ih =>
    obtain ⟨k, r⟩ := p
    by_cases hk : k = id
    · rw [eraseKey_cons_self hk]
      exact ih
    · rw [eraseKey_cons_other hk]
      rw [show findRow ((k, r) :: eraseKey rest id) id = findRow (eraseKey rest id) id by
        simp [findRow, hk]]
      exact ih

theorem findRow_eraseKey_other (stored : StoredTable) (id id2 : String) (h : id2 ≠ id) :
    findRow (eraseKey stored id) id2 = findRow stored id2 := by
  induction stored with
  | nil => rfl
  | cons p rest ih =>
    obtain ⟨k, r⟩ := p
    by_cases hk : k = id
    · have hk2 : k ≠ id2 := by
        rw [hk]
        exact fun hh => h hh.symm
      rw [eraseKey_cons_self hk, ih]
      rw [show findRow ((k, r) :: rest) id2 = findRow rest id2 by simp [findRow, hk2]]
    · rw [eraseKey_cons_other hk]
      by_cases hk2 : k = id2
      · simp [findRow, hk2]
      · rw [show findRow ((k, r) :: eraseKey rest id) id2 = findRow (eraseKey rest id) id2 by
          simp [findRow, hk2]]
        rw [show findRow ((k, r) :: rest) id2 = findRow rest id2 by simp [findRow, hk2]]
        exact ih

theorem keysR_eraseKey (stored : StoredTable) (id : String) :
    keysR (eraseKey stored id) = (keysR stored).filter (fun k => ! decide (k = id)) := by
  induction stored with
  | nil => rfl
  | cons p rest ih =>
    obtain ⟨k, r⟩ := p
    by_cases hk : k = id
    · rw [eraseKey_cons_self hk]
      rw [ih]
      rw [show keysR ((k, r) :: rest) = k :: keysR rest from rfl]
      rw [List.filter_cons]
      simp [hk]
    · rw [eraseKey_cons_other hk]
      rw [show keysR ((k, r) :: eraseKey rest id) = k :: keysR (eraseKey rest id) from rfl]
      rw [ih]
      rw [show keysR ((k, r) :: rest) = k :: keysR rest from rfl]
      rw [List.filter_cons]
      simp [hk]

theorem updateRow_cons_self {k : String} {r0 : Row} {rest : StoredTable} {id : String}
    (hk : k = id) (r : Row) :
    updateRow ((k, r0) :: rest) id r = (id, r) :: updateRow rest id r := by
  simp [updateRow, hk]

theorem updateRow_cons_other {k : String} {r0 : Row} {rest : StoredTable} {id : String}
    (hk : k ≠ id) (r : Row) :
    updateRow ((k, r0) :: rest) id r = (k, r0) :: updateRow rest id r := by
  simp [updateRow, hk]

theorem keysR_updateRow (stored : StoredTable) (id : String) (r : Row) :
    keysR (updateRow stored id r) = keysR stored := by
  induction stored with
  | nil => rfl
  | cons p rest ih =>
    obtain ⟨k, r0⟩ := p
    by_cases hk : k = id
    · rw [updateRow_cons_self hk]
      rw [show keysR ((id, r) :: updateRow rest id r) = id :: keysR (updateRow rest id r) from rfl]
      rw [ih]
      rw [show keysR ((k, r0) :: rest) = k :: keysR rest from rfl, hk]
    · rw [updateRow_cons_other hk]
      rw [show keysR ((k, r0) :: updateRow rest id r) = k :: keysR (updateRow rest id r) from rfl]
      rw [ih]
      rfl

theorem findRow_updateRow_self (stored : StoredTable) (id : String) (r : Row)
    (h : id ∈ keysR stored) : findRow (updateRow stored id r) id = some r := by
  induction stored with
  | nil => simp [keysR] at h
  | cons p rest ih =>
    obtain ⟨k, r0⟩ := p
    by_cases hk : k = id
    · rw [updateRow_cons_self hk]
      simp [findRow]
    · rw [updateRow_cons_other hk]
      have hmem : id ∈ keysR rest := by
        simp only [keysR, List.map_cons] at h
        rcases List.mem_cons.mp h with h1 | h1
        · exact absurd h1.symm hk
        · exact h1
      rw [show findRow ((k, r0) :: updateRow rest id r) id = findRow (updateRow rest id r) id by
        simp [findRow, hk]]
      exact ih hmem

theorem findRow_updateRow_other (stored : StoredTable) (id id2 : String) (r : Row)
    (h : id2 ≠ id) : findRow (updateRow stored id r) id2 = findRow stored id2 := by
  induction stored with
  | nil => rfl
  | cons p rest ih =>
    obtain ⟨k, r0⟩ := p
    by_cases hk : k = id
    · rw [updateRow_cons_self hk]
      have hk2 : id ≠ id2 := fun hh => h hh.symm
      rw [show findRow ((id, r) :: updateRow rest id r) id2 = findRow (updateRow rest id r) id2 by
        simp [findRow, hk2]]
      rw [ih]
      have hk3 : k ≠ id2 := by
        rw [hk]
        exact hk2
      simp [findRow, hk3]
    · rw [updateRow_cons_other hk]
      by_cases hk2 : k = id2
      · simp [findRow, hk2]
      · rw [show findRow ((k, r0) :: updateRow rest id r) id2 = findRow (updateRow rest id r) id2 by
          simp [findRow, hk2]]
        rw [ih]
        simp [findRow, hk2]

theorem findRow_append_left {stored : StoredTable} {id : String} {r : Row}
    (h : findRow stored id = some r) (more : StoredTable) :
    findRow (stored ++ more) id = some r := by
  induction stored with
  | nil => simp [findRow] at h
  | cons p rest ih =>
    obtain ⟨k, r0⟩ := p
    by_cases hk : k = id
    · rw [show findRow ((k, r0) :: rest) id = some r0 by simp [findRow, hk]] at h
      rw [List.cons_append]
      rw [show findRow ((k, r0) :: (rest ++ more)) id = some r0 by simp [findRow, hk]]
      exact h
    · rw [show findRow ((k, r0) :: rest) id = findRow rest id by simp [findRow, hk]] at h
      rw [List.cons_append]
      rw [show findRow ((k, r0) :: (rest ++ more)) id = findRow (rest ++ more) id by
        simp [findRow, hk]]
      exact ih h

theorem replaceNewline_cons_nl (t : List Char) :
    replaceNewline ('\n' :: t) = ' ' :: replaceNewline t := by
  simp [replaceNewline]

theorem replaceNewline_cons_other {c : Char} (h : c ≠ '\n') (t : List Char) :
    replaceNewline (c :: t) = c :: replaceNewline t := by
  simp [replaceNewline, h]

theorem removeCR_cons_cr (t : List Char) : removeCR ('\r' :: t) = removeCR t := by
  simp [removeCR]

theorem removeCR_cons_other {c : Char} (h : c ≠ '\r') (t : List Char) :
    removeCR (c :: t) = c :: removeCR t := by
  simp [removeCR, h]

theorem collapse_stages (s : List Char) :
    removeCR (replaceNewline (replaceLitBackslashN s)) = collapseSpec s := by
  have H : ∀ n (s : List Char), s.length ≤ n →
      removeCR (replaceNewline (replaceLitBackslashN s)) = collapseSpec s := by
    intro n
    induction n with
    | zero =>
      intro s hs
      have hnil : s = [] := List.eq_nil_of_length_eq_zero (Nat.le_zero.mp hs)
      subst hnil
      rfl
    | succ n ih =>
      intro s hs
      rcases s with _ | ⟨c1, s1⟩
      · rfl
      rcases s1 with _ | ⟨c2, rest⟩
      · by_cases h1 : c1 = '\n'
        · subst h1
          decide
        · by_cases h2 : c1 = '\r'
          · subst h2
            decide
          · rw [show replaceLitBackslashN [c1] = [c1] from rfl]
            rw [replaceNewline_cons_other h1, removeCR_cons_other h2]
            simp [replaceNewline, removeCR, collapseSpec, h1, h2]
      have hr : rest.length ≤ n := by
        simp only [List.length_cons] at hs
        omega
      have hr2 : (c2 :: rest).length ≤ n := by
        simp only [List.length_cons] at hs ⊢
        omega
      by_cases hp : c1 = '\\' ∧ c2 = 'n'
      · obtain ⟨hp1, hp2⟩ := hp
        subst hp1
        subst hp2
        rw [show replaceLitBackslashN ('\\' :: 'n' :: rest) = ' ' :: replaceLitBackslashN rest by
          simp [replaceLitBackslashN]]
        rw [replaceNewline_cons_other (by decide), removeCR_cons_other (by decide)]
        rw [show collapseSpec ('\\' :: 'n' :: rest) = ' ' :: collapseSpec rest by
          simp [collapseSpec]]
        rw [ih rest hr]
      · rw [show replaceLitBackslashN (c1 :: c2 :: rest)
              = c1 :: replaceLitBackslashN (c2 :: rest) by simp [replaceLitBackslashN, hp]]
        by_cases h1 : c1 = '\n'
        · subst h1
          rw [replaceNewline_cons_nl, removeCR_cons_other (by decide)]
          rw [ih (c2 :: rest) hr2]
          rw [show collapseSpec ('\n' :: c2 :: rest) = ' ' :: collapseSpec (c2 :: rest) by
            simp [collapseSpec, hp]]
        · by_cases h2 : c1 = '\r'
          · subst h2
            rw [replaceNewline_cons_other (by decide), removeCR_cons_cr]
            rw [ih (c2 :: rest) hr2]
            rw [show collapseSpec ('\r' :: c2 :: rest) = collapseSpec (c2 :: rest) by
              simp [collapseSpec, hp]]
          · rw [replaceNewline_cons_other h1, removeCR_cons_other h2]
            rw [ih (c2 :: rest) hr2]
            rw [show collapseSpec (c1 :: c2 :: rest) = c1 :: collapseSpec (c2 :: rest) by
              simp [collapseSpec, hp, h1, h2]]
  exact H s.length s le_rfl

theorem escape_stages (s : List Char) : escapeQuote (escapeBackslash s) = escSpec s := by
  induction s with
  | nil => rfl
  | cons c t ih =>
    by_cases h1 : c = '\\'
    · subst h1
      rw [show escapeBackslash ('\\' :: t) = '\\' :: '\\' :: escapeBackslash t by
        simp [escapeBackslash]]
      rw [show escapeQuote ('\\' :: '\\' :: escapeBackslash t)
            = '\\' :: '\\' :: escapeQuote (escapeBackslash t) by simp [escapeQuote]]
      rw [ih]
      simp [escSpec]
    · by_cases h2 : c = '\x22'
      · subst h2
        rw [show escapeBackslash ('\x22' :: t) = '\x22' :: escapeBackslash t by
          simp [escapeBackslash]]
        rw [show escapeQuote ('\x22' :: escapeBackslash t)
              = '\\' :: '\x22' :: escapeQuote (escapeBackslash t) by simp [escapeQuote]]
        rw [ih]
        simp [escSpec]
      · rw [show escapeBackslash (c :: t) = c :: escapeBackslash t by simp [escapeBackslash, h1]]
        rw [show escapeQuote (c :: escapeBackslash t) = c :: escapeQuote (escapeBackslash t) by
          simp [escapeQuote, h2]]
        rw [ih]
        simp [escSpec, h1, h2]

theorem not_mem_collapseSpec {c : Char} (hc : c = '\n' ∨ c = '\r') (s : List Char) :
    c ∉ collapseSpec s := by
  have hsp : c ≠ ' ' := by
    rcases hc with h | h <;> subst h <;> decide
  have H : ∀ n (s : List Char), s.length ≤ n → c ∉ collapseSpec s := by
    intro n
    induction n with
    | zero =>
      intro s hs
      have hnil : s = [] := List.eq_nil_of_length_eq_zero (Nat.le_zero.mp hs)
      subst hnil
      simp [collapseSpec]
    | succ n ih =>
      intro s hs
      rcases s with _ | ⟨c1, s1⟩
      · simp [collapseSpec]
      rcases s1 with _ | ⟨c2, rest⟩
      · by_cases h1 : c1 = '\n'
        · subst h1
          simp [collapseSpec, hsp]
        · by_cases h2 : c1 = '\r'
          · subst h2
            simp [collapseSpec]
          · have hcc : c ≠ c1 := by
              rcases hc with h | h
              · subst h
                exact fun hh => h1 hh.symm
              · subst h
                exact fun hh => h2 hh.symm
            simp [collapseSpec, h1, h2, hcc]
      have hr : rest.length ≤ n := by
        simp only [List.length_cons] at hs
        omega
      have hr2 : (c2 :: rest).length ≤ n := by
        simp only [List.length_cons] at hs ⊢
        omega
      by_cases hp : c1 = '\\' ∧ c2 = 'n'
      · rw [show collapseSpec (c1 :: c2 :: rest) = ' ' :: collapseSpec rest by
          simp [collapseSpec, hp]]
        simp [hsp, ih rest hr]
      · by_cases h1 : c1 = '\n'
        · rw [show collapseSpec (c1 :: c2 :: rest) = ' ' :: collapseSpec (c2 :: rest) by
            simp [collapseSpec, hp, h1]]
          simp [hsp, ih (c2 :: rest) hr2]
        · by_cases h2 : c1 = '\r'
          · rw [show collapseSpec (c1 :: c2 :: rest) = collapseSpec (c2 :: rest) by
              simp [collapseSpec, hp, h1, h2]]
            exact ih (c2 :: rest) hr2
          · rw [show collapseSpec (c1 :: c2 :: rest) = c1 :: collapseSpec (c2 :: rest) by
              simp [collapseSpec, hp, h1, h2]]
            have hcc : c ≠ c1 := by
              rcases hc with h | h
              · subst h
                exact fun hh => h1 hh.symm
              · subst h
                exact fun hh => h2 hh.symm
            simp [hcc, ih (c2 :: rest) hr2]
  exact H s.length s le_rfl

theorem not_mem_escSpec {c : Char} (hbs : c ≠ '\\') (hq : c ≠ '\x22') {s : List Char}
    (h : c ∉ s) : c ∉ escSpec s := by
  induction s with
  | nil => simp [escSpec]
  | cons a t ih =>
    have ha : c ≠ a := fun hh => h (hh ▸ List.mem_cons_self a t)
    have ht : c ∉ t := fun hh => h (List.mem_cons_of_mem a hh)
    by_cases h1 : a = '\\'
    · rw [show escSpec (a :: t) = '\\' :: '\\' :: escSpec t by simp [escSpec, h1]]
      simp [hbs, ih ht]
    · by_cases h2 : a = '\x22'
      · rw [show escSpec (a :: t) = '\\' :: '\x22' :: escSpec t by simp [escSpec, h1, h2]]
        simp [hbs, hq, ih ht]
      · rw [show escSpec (a :: t) = a :: escSpec t by simp [escSpec, h1, h2]]
        simp [ha, ih ht]

theorem hasUnescapedQuote_escSpec (s : List Char) :
    hasUnescapedQuote (escSpec s) = false := by
  show hasUnescapedQuoteAux false (escSpec s) = false
  induction s with
  | nil => rfl
  | cons a t ih =>
    by_cases h1 : a = '\\'
    · rw [show escSpec (a :: t) = '\\' :: '\\' :: escSpec t by simp [escSpec, h1]]
      rw [show hasUnescapedQuoteAux false ('\\' :: '\\' :: escSpec t)
            = hasUnescapedQuoteAux false (escSpec t) by simp [hasUnescapedQuoteAux]]
      exact ih
    · by_cases h2 : a = '\x22'
      · rw [show escSpec (a :: t) = '\\' :: '\x22' :: escSpec t by simp [escSpec, h1, h2]]
        rw [show hasUnescapedQuoteAux false ('\\' :: '\x22' :: escSpec t)
              = hasUnescapedQuoteAux false (escSpec t) by simp [hasUnescapedQuoteAux]]
        exact ih
      · rw [show escSpec (a :: t) = a :: escSpec t by simp [escSpec, h1, h2]]
        rw [show hasUnescapedQuoteAux false (a :: escSpec t)
              = hasUnescapedQuoteAux false (escSpec t) by simp [hasUnescapedQuoteAux, h1, h2]]
        exact ih

theorem findRow_append_right {stored : StoredTable} {id : String}
    (h : findRow stored id = none) (more : StoredTable) :
    findRow (stored ++ more) id = findRow more id := by
  induction stored with
  | nil => rfl
  | cons p rest ih =>
    obtain ⟨k, r0⟩ := p
    by_cases hk : k = id
    · rw [show findRow ((k, r0) :: rest) id = some r0 by simp [findRow, hk]] at h
      exact absurd h (by simp)
    · rw [show findRow ((k, r0) :: rest) id = findRow rest id by simp [findRow, hk]] at h
      rw [List.cons_append]
      rw [show findRow ((k, r0) :: (rest ++ more)) id = findRow (rest ++ more) id by
        simp [findRow, hk]]
      exact ih h

theorem add_loop_skip_dup {env : Env} {s : St} {id : String} {l : LiveRow}
    {rest : List (String × LiveRow)} (h : duplicateExists s.stored l = true) :
    add_events_loop env s ((id, l) :: rest)
      = add_events_loop env { s with trace := s.trace ++ [Ev.skipped id] } rest := by
  simp [add_events_loop, h]

theorem add_loop_skip_present {env : Env} {s : St} {id : String} {l : LiveRow}
    {rest : List (String × LiveRow)} (h : duplicateExists s.stored l = false)
    (h2 : (findRow s.stored id).isSome = true) :
    add_events_loop env s ((id, l) :: rest)
      = add_events_loop env { s with trace := s.trace ++ [Ev.skipped id] } rest := by
  simp [add_events_loop, h, h2]

theorem add_loop_err {env : Env} {s : St} {id : String} {l : LiveRow}
    {rest : List (String × LiveRow)} (h : duplicateExists s.stored l = false)
    (h2 : (findRow s.stored id).isSome = false)
    (h3 : env.addRes s.addN = AddOutcome.err) :
    add_events_loop env s ((id, l) :: rest)
      = add_events_loop env { s with addN := s.addN + 1, errC := s.errC + 1,
                                     trace := s.trace ++ [Ev.calAddFail] } rest := by
  simp [add_events_loop, h, h2, h3]

theorem add_loop_noId {env : Env} {s : St} {id : String} {l : LiveRow}
    {rest : List (String × LiveRow)} (h : duplicateExists s.stored l = false)
    (h2 : (findRow s.stored id).isSome = false)
    (h3 : env.addRes s.addN = AddOutcome.noId) :
    add_events_loop env s ((id, l) :: rest)
      = add_events_loop env { s with addN := s.addN + 1, errC := s.errC + 1,
                                     trace := s.trace ++ [Ev.calAdd none] } rest := by
  simp [add_events_loop, h, h2, h3]

theorem add_loop_ok {env : Env} {s : St} {id : String} {l : LiveRow}
    {rest : List (String × LiveRow)} {eid : String}
    (h : duplicateExists s.stored l = false)
    (h2 : (findRow s.stored id).isSome = false)
    (h3 : env.addRes s.addN = AddOutcome.ok eid) :
    add_events_loop env s ((id, l) :: rest)
      = add_events_loop env
          { s with addN := s.addN + 1, succC := s.succC + 1,
                   stored := s.stored ++ [(id, toRow l (some eid))],
                   trace := s.trace ++ [Ev.calAdd (some eid), Ev.save] } rest := by
  simp [add_events_loop, h, h2, h3]

theorem add_events_loop_master (env : Env) (rows : List (String × LiveRow)) :
    ∀ s : St, ∃ d : List Ev,
      (add_events_loop env s rows).trace = s.trace ++ d
      ∧ (add_events_loop env s rows).fetchN = s.fetchN
      ∧ (add_events_loop env s rows).exn = s.exn
      ∧ (add_events_loop env s rows).errC = s.errC + countFailAdd d
      ∧ (add_events_loop env s rows).succC = s.succC + countOkAdd d
      ∧ countSkip d + countFailAdd d + countOkAdd d = rows.length
      ∧ countSave d = countOkAdd d
      ∧ (∀ id r0, findRow s.stored id = some r0
           → findRow (add_events_loop env s rows).stored id = some r0) := by
  induction rows with
  | nil =>
    intro s
    refine ⟨[], by simp [add_events_loop], by rfl, by rfl, ?_, ?_, ?_, ?_, ?_⟩
    · simp [add_events_loop, countFailAdd]
    · simp [add_events_loop, countOkAdd]
    · simp [countSkip, countFailAdd, countOkAdd]
    · simp [countSave, countOkAdd]
    · intro id r0 h
      simpa [add_events_loop] using h
  | cons p rest ih =>
    obtain ⟨id, l⟩ := p
    intro s
    by_cases h1 : duplicateExists s.stored l = true
    · obtain ⟨d, htr, hf, he, herr, hsuc, hcnt, hsave, hpres⟩ :=
        ih { s with trace := s.trace ++ [Ev.skipped id] }
      rw [add_loop_skip_dup h1]
      refine ⟨Ev.skipped id :: d, ?_, hf, he, ?_, ?_, ?_, ?_, ?_⟩
      · rw [htr]
        simp
      · rw [herr]
        simp [countFailAdd, List.countP_cons]
      · rw [hsuc]
        simp [countOkAdd, List.countP_cons]
      · simp [countSkip, countFailAdd, countOkAdd, List.countP_cons] at hcnt ⊢
        omega
      · simp [countSave, countOkAdd, List.countP_cons] at hsave ⊢
        omega
      · exact hpres
    · rw [Bool.not_eq_true] at h1
      by_cases h2 : (findRow s.stored id).isSome = true
      · obtain ⟨d, htr, hf, he, herr, hsuc, hcnt, hsave, hpres⟩ :=
          ih { s with trace := s.trace ++ [Ev.skipped id] }
        rw [add_loop_skip_present h1 h2]
        refine ⟨Ev.skipped id :: d, ?_, hf, he, ?_, ?_, ?_, ?_, ?_⟩
        · rw [htr]
          simp
        · rw [herr]
          simp [countFailAdd, List.countP_cons]
        · rw [hsuc]
          simp [countOkAdd, List.countP_cons]
        · simp [countSkip, countFailAdd, countOkAdd, List.countP_cons] at hcnt ⊢
          omega
        · simp [countSave, countOkAdd, List.countP_cons] at hsave ⊢
          omega
        · exact hpres
      · rw [Bool.not_eq_true] at h2
        rcases h3 : env.addRes s.addN with eid | _ | _
        · obtain ⟨d, htr, hf, he, herr, hsuc, hcnt, hsave, hpres⟩ :=
            ih { s with addN := s.addN + 1, succC := s.succC + 1,
                        stored := s.stored ++ [(id, toRow l (some eid))],
                        trace := s.trace ++ [Ev.calAdd (some eid), Ev.save] }
          rw [add_loop_ok h1 h2 h3]
          refine ⟨Ev.calAdd (some eid) :: Ev.save :: d, ?_, hf, he, ?_, ?_, ?_, ?_, ?_⟩
          · rw [htr]
            simp
          · rw [herr]
            simp [countFailAdd, List.countP_cons]
          · rw [hsuc]
            simp [countOkAdd, List.countP_cons]
            omega
          · simp [countSkip, countFailAdd, countOkAdd, List.countP_cons] at hcnt ⊢
            omega
          · simp [countSave, countOkAdd, List.countP_cons] at hsave ⊢
            omega
          · intro id2 r0 hfr
            exact hpres id2 r0 (findRow_append_left hfr _)
        · obtain ⟨d, htr, hf, he, herr, hsuc, hcnt, hsave, hpres⟩ :=
            ih { s with addN := s.addN + 1, errC := s.errC + 1,
                        trace := s.trace ++ [Ev.calAdd none] }
          rw [add_loop_noId h1 h2 h3]
          refine ⟨Ev.calAdd none :: d, ?_, hf, he, ?_, ?_, ?_, ?_, ?_⟩
          · rw [htr]
            simp
          · rw [herr]
            simp [countFailAdd, List.countP_cons]
            omega
          · rw [hsuc]
            simp [countOkAdd, List.countP_cons]
          · simp [countSkip, countFailAdd, countOkAdd, List.countP_cons] at hcnt ⊢
            omega
          · simp [countSave, countOkAdd, List.countP_cons] at hsave ⊢
            omega
          · exact hpres
        · obtain ⟨d, htr, hf, he, herr, hsuc, hcnt, hsave, hpres⟩ :=
            ih { s with addN := s.addN + 1, errC := s.errC + 1,
                        trace := s.trace ++ [Ev.calAddFail] }
          rw [add_loop_err h1 h2 h3]
          refine ⟨Ev.calAddFail :: d, ?_, hf, he, ?_, ?_, ?_, ?_, ?_⟩
          · rw [htr]
            simp
          · rw [herr]
            simp [countFailAdd, List.countP_cons]
            omega
          · rw [hsuc]
            simp [countOkAdd, List.countP_cons]
          · simp [countSkip, countFailAdd, countOkAdd, List.countP_cons] at hcnt ⊢
            omega
          · simp [countSave, countOkAdd, List.countP_cons] at hsave ⊢
            omega
          · exact hpres


theorem countSave_cons (e : Ev) (d : List Ev) :
    countSave (e :: d) = countSave d + (if e = Ev.save then 1 else 0) := by
  simp [countSave, List.countP_cons]

theorem countDel_cons (e : Ev) (d : List Ev) :
    countDel (e :: d)
      = countDel d + (match e with | Ev.calDelete _ _ => 1 | _ => 0) := by
  rcases e <;> simp [countDel, List.countP_cons]

theorem countSkip_cons (e : Ev) (d : List Ev) :
    countSkip (e :: d)
      = countSkip d + (match e with | Ev.skipped _ => 1 | _ => 0) := by
  rcases e <;> simp [countSkip, List.countP_cons]

theorem remove_loop_exn {env : Env} {s : St} {id : String} {rest : List String}
    (h : s.exn = true) : remove_events_loop env s (id :: rest) = s := by
  simp [remove_events_loop, h]

theorem remove_loop_missing {env : Env} {s : St} {id : String} {rest : List String}
    (h : s.exn = false) (h2 : findRow s.stored id = none) :
    remove_events_loop env s (id :: rest) = { s with exn := true } := by
  simp [remove_events_loop, h, h2]

theorem remove_loop_step {env : Env} {s : St} {id : String} {rest : List String} {r : Row}
    (h : s.exn = false) (h2 : findRow s.stored id = some r) :
    remove_events_loop env s (id :: rest)
      = remove_events_loop env
          { s with delN := s.delN + 1, stored := eraseKey s.stored id,
                   trace := s.trace ++ [Ev.calDelete r.event_id (env.delOk s.delN)] } rest := by
  simp [remove_events_loop, h, h2]

theorem remove_events_loop_inv (env : Env) (ids : List String) :
    ∀ s : St,
      (remove_events_loop env s ids).fetchN = s.fetchN
      ∧ (remove_events_loop env s ids).addN = s.addN
      ∧ countSkip (remove_events_loop env s ids).trace = countSkip s.trace
      ∧ (∀ id, id ∉ ids → findRow (remove_events_loop env s ids).stored id
           = findRow s.stored id)
      ∧ (s.exn = true → remove_events_loop env s ids = s) := by
  induction ids with
  | nil =>
    intro s
    exact ⟨rfl, rfl, rfl, fun id _ => rfl, fun _ => rfl⟩
  | cons id0 rest ih =>
    intro s
    by_cases hexn : s.exn = true
    · rw [remove_loop_exn hexn]
      exact ⟨rfl, rfl, rfl, fun id _ => rfl, fun _ => rfl⟩
    · rw [Bool.not_eq_true] at hexn
      rcases hr : findRow s.stored id0 with _ | r
      · rw [remove_loop_missing hexn hr]
        exact ⟨rfl, rfl, rfl, fun id _ => rfl, by simp [hexn]⟩
      · rw [remove_loop_step hexn hr]
        obtain ⟨hf, ha, hskip, hfind, _⟩ :=
          ih { s with delN := s.delN + 1, stored := eraseKey s.stored id0,
                      trace := s.trace ++ [Ev.calDelete r.event_id (env.delOk s.delN)] }
        refine ⟨hf, ha, ?_, ?_, by simp [hexn]⟩
        · rw [hskip]
          simp [countSkip, List.countP_append, List.countP_cons]
        · intro id hid
          have hid0 : id ≠ id0 := fun hh => hid (hh ▸ List.mem_cons_self _ _)
          have hidr : id ∉ rest := fun hh => hid (List.mem_cons_of_mem _ hh)
          rw [hfind id hidr]
          exact findRow_eraseKey_other _ _ _ hid0

theorem remove_events_loop_char (env : Env) (ids : List String) :
    ∀ s : St, s.exn = false → ids.Nodup → (∀ i ∈ ids, i ∈ keysR s.stored) →
      ∃ d : List Ev,
        (remove_events_loop env s ids).trace = s.trace ++ d
        ∧ (remove_events_loop env s ids).exn = false
        ∧ countSave d = 0
        ∧ countDel d = ids.length
        ∧ (∀ id, findRow (remove_events_loop env s ids).stored id
             = if id ∈ ids then none else findRow s.stored id)
        ∧ ((keysR s.stored).Nodup → (keysR (remove_events_loop env s ids).stored).Nodup) := by
  induction ids with
  | nil =>
    intro s hexn _ _
    refine ⟨[], by simp [remove_events_loop], hexn, by simp [countSave],
      by simp [countDel], ?_, fun h => h⟩
    intro id
    simp [remove_events_loop]
  | cons id0 rest ih =>
    intro s hexn hnd hmem
    have h0 : id0 ∈ keysR s.stored := hmem id0 (List.mem_cons_self _ _)
    rcases hr : findRow s.stored id0 with _ | r
    · exact absurd ((findRow_eq_none_iff _ _).mp hr) (by simp [h0])
    rw [remove_loop_step hexn hr]
    have hnd0 : id0 ∉ rest := (List.nodup_cons.mp hnd).1
    have hmem2 : ∀ i ∈ rest,
        i ∈ keysR (eraseKey s.stored id0) := by
      intro i hi
      have hne : i ≠ id0 := fun hh => hnd0 (hh ▸ hi)
      rw [keysR_eraseKey]
      refine List.mem_filter.mpr ⟨hmem i (List.mem_cons_of_mem _ hi), by simp [hne]⟩
    obtain ⟨d, htr, hex, hsave, hdel, hfind, hndk⟩ :=
      ih { s with delN := s.delN + 1, stored := eraseKey s.stored id0,
                  trace := s.trace ++ [Ev.calDelete r.event_id (env.delOk s.delN)] }
        hexn (List.nodup_cons.mp hnd).2 hmem2
    refine ⟨Ev.calDelete r.event_id (env.delOk s.delN) :: d, ?_, hex, ?_, ?_, ?_, ?_⟩
    · rw [htr]
      simp
    · rw [countSave_cons, hsave]
      simp
    · rw [countDel_cons, hdel]
      simp
    · intro id
      rw [hfind id]
      by_cases hid : id ∈ rest
      · simp [hid]
      · by_cases hid0 : id = id0
        · subst hid0
          simp [hid, findRow_eraseKey_self]
        · have : id ∉ id0 :: rest := by
            intro hh
            rcases List.mem_cons.mp hh with hh | hh
            · exact hid0 hh
            · exact hid hh
          simp [hid, this, hid0, findRow_eraseKey_other _ _ _ hid0]
    · intro hndk0
      refine hndk ?_
      rw [keysR_eraseKey]
      exact List.Nodup.filter _ hndk0

theorem modify_loop_exn {env : Env} {s : St} {c : LiveTable} {id : String}
    {rest : List String} (h : s.exn = true) :
    modify_events_loop env s c (id :: rest) = s := by
  simp [modify_events_loop, h]

theorem modify_loop_noLive {env : Env} {s : St} {c : LiveTable} {id : String}
    {rest : List String} (h : s.exn = false) (h2 : findLive c id = none) :
    modify_events_loop env s c (id :: rest) = { s with exn := true } := by
  simp [modify_events_loop, h, h2]

theorem modify_loop_noRow {env : Env} {s : St} {c : LiveTable} {id : String}
    {rest : List String} {l : LiveRow} (h : s.exn = false) (h2 : findLive c id = some l)
    (h3 : findRow s.stored id = none) :
    modify_events_loop env s c (id :: rest) = { s with exn := true } := by
  simp [modify_events_loop, h, h2, h3]

theorem modify_loop_err {env : Env} {s : St} {c : LiveTable} {id : String}
    {rest : List String} {l : LiveRow} {r : Row} (h : s.exn = false)
    (h2 : findLive c id = some l) (h3 : findRow s.stored id = some r)
    (h4 : env.addRes s.addN = AddOutcome.err) :
    modify_events_loop env s c (id :: rest)
      = { s with delN := s.delN + 1, addN := s.addN + 1, exn := true,
                 trace := s.trace ++ [Ev.calDelete r.event_id (env.delOk s.delN),
                                      Ev.calAddFail] } := by
  simp [modify_events_loop, h, h2, h3, h4]

theorem modify_loop_noId {env : Env} {s : St} {c : LiveTable} {id : String}
    {rest : List String} {l : LiveRow} {r : Row} (h : s.exn = false)
    (h2 : findLive c id = some l) (h3 : findRow s.stored id = some r)
    (h4 : env.addRes s.addN = AddOutcome.noId) :
    modify_events_loop env s c (id :: rest)
      = modify_events_loop env
          { s with delN := s.delN + 1, addN := s.addN + 1,
                   stored := updateRow s.stored id (toRow l none),
                   trace := s.trace ++ [Ev.calDelete r.event_id (env.delOk s.delN),
                                        Ev.calAdd none, Ev.save] } c rest := by
  simp [modify_events_loop, h, h2, h3, h4]

theorem modify_loop_ok {env : Env} {s : St} {c : LiveTable} {id : String}
    {rest : List String} {l : LiveRow} {r : Row} {eid : String} (h : s.exn = false)
    (h2 : findLive c id = some l) (h3 : findRow s.stored id = some r)
    (h4 : env.addRes s.addN = AddOutcome.ok eid) :
    modify_events_loop env s c (id :: rest)
      = modify_events_loop env
          { s with delN := s.delN + 1, addN := s.addN + 1,
                   stored := updateRow s.stored id (toRow l (some eid)),
                   trace := s.trace ++ [Ev.calDelete r.event_id (env.delOk s.delN),
                                        Ev.calAdd (some eid), Ev.save] } c rest := by
  simp [modify_events_loop, h, h2, h3, h4]

theorem modify_events_loop_inv (env : Env) (c : LiveTable) (ids : List String) :
    ∀ s : St,
      (modify_events_loop env s c ids).fetchN = s.fetchN
      ∧ countSkip (modify_events_loop env s c ids).trace = countSkip s.trace
      ∧ keysR (modify_events_loop env s c ids).stored = keysR s.stored
      ∧ (s.exn = true → modify_events_loop env s c ids = s) := by
  induction ids with
  | nil =>
    intro s
    exact ⟨rfl, rfl, rfl, fun _ => rfl⟩
  | cons id0 rest ih =>
    intro s
    by_cases hexn : s.exn = true
    · rw [modify_loop_exn hexn]
      exact ⟨rfl, rfl, rfl, fun _ => rfl⟩
    · rw [Bool.not_eq_true] at hexn
      rcases hl : findLive c id0 with _ | l
      · rw [modify_loop_noLive hexn hl]
        exact ⟨rfl, rfl, rfl, by simp [hexn]⟩
      rcases hr : findRow s.stored id0 with _ | r
      · rw [modify_loop_noRow hexn hl hr]
        exact ⟨rfl, rfl, rfl, by simp [hexn]⟩
      rcases ha : env.addRes s.addN with eid | _ | _
      · rw [modify_loop_ok hexn hl hr ha]
        obtain ⟨hf, hskip, hkeys, _⟩ :=
          ih { s with delN := s.delN + 1, addN := s.addN + 1,
                      stored := updateRow s.stored id0 (toRow l (some eid)),
                      trace := s.trace ++ [Ev.calDelete r.event_id (env.delOk s.delN),
                                           Ev.calAdd (some eid), Ev.save] }
        refine ⟨hf, ?_, ?_, by simp [hexn]⟩
        · rw [hskip]
          simp [countSkip, List.countP_append, List.countP_cons]
        · rw [hkeys]
          exact keysR_updateRow _ _ _
      · rw [modify_loop_noId hexn hl hr ha]
        obtain ⟨hf, hskip, hkeys, _⟩ :=
          ih { s with delN := s.delN + 1, addN := s.addN + 1,
                      stored := updateRow s.stored id0 (toRow l none),
                      trace := s.trace ++ [Ev.calDelete r.event_id (env.delOk s.delN),
                                           Ev.calAdd none, Ev.save] }
        refine ⟨hf, ?_, ?_, by simp [hexn]⟩
        · rw [hskip]
          simp [countSkip, List.countP_append, List.countP_cons]
        · rw [hkeys]
          exact keysR_updateRow _ _ _
      · rw [modify_loop_err hexn hl hr ha]
        refine ⟨rfl, ?_, rfl, by simp [hexn]⟩
        simp [countSkip, List.countP_append, List.countP_cons]

theorem modify_events_loop_char (env : Env) (c : LiveTable) (ids : List String) :
    ∀ s : St, s.exn = false →
      (∀ n, ∃ e, env.addRes n = AddOutcome.ok e) →
      (∀ i ∈ ids, (findLive c i).isSome = true ∧ i ∈ keysR s.stored) →
      ∃ d : List Ev,
        (modify_events_loop env s c ids).trace = s.trace ++ d
        ∧ (modify_events_loop env s c ids).exn = false
        ∧ countSave d = ids.length
        ∧ maxLag d ≤ 2
        ∧ (∀ id, id ∉ ids → findRow (modify_events_loop env s c ids).stored id
             = findRow s.stored id)
        ∧ (∀ id ∈ ids, ∃ l e, findLive c id = some l
             ∧ findRow (modify_events_loop env s c ids).stored id
                 = some (toRow l (some e))) := by
  induction ids with
  | nil =>
    intro s hexn _ _
    refine ⟨[], by simp [modify_events_loop], hexn, by simp [countSave], ?_, ?_, ?_⟩
    · simp [maxLag, maxLagAux]
    · intro id _
      rfl
    · intro id hid
      simp at hid
  | cons id0 rest ih =>
    intro s hexn hok hpre
    obtain ⟨hl0, hr0⟩ := hpre id0 (List.mem_cons_self _ _)
    rcases hl : findLive c id0 with _ | l
    · rw [hl] at hl0
      simp at hl0
    rcases hr : findRow s.stored id0 with _ | r
    · exact absurd hr0 ((findRow_eq_none_iff _ _).mp hr)
    obtain ⟨eid, ha⟩ := hok s.addN
    rw [modify_loop_ok hexn hl hr ha]
    have hpre2 : ∀ i ∈ rest,
        (findLive c i).isSome = true
        ∧ i ∈ keysR (updateRow s.stored id0 (toRow l (some eid))) := by
      intro i hi
      obtain ⟨h1, h2⟩ := hpre i (List.mem_cons_of_mem _ hi)
      rw [keysR_updateRow]
      exact ⟨h1, h2⟩
    obtain ⟨d, htr, hex, hsave, hlag, hother, hmem⟩ :=
      ih { s with delN := s.delN + 1, addN := s.addN + 1,
                  stored := updateRow s.stored id0 (toRow l (some eid)),
                  trace := s.trace ++ [Ev.calDelete r.event_id (env.delOk s.delN),
                                       Ev.calAdd (some eid), Ev.save] }
        hexn hok hpre2
    refine ⟨Ev.calDelete r.event_id (env.delOk s.delN) :: Ev.calAdd (some eid) :: Ev.save :: d,
      ?_, hex, ?_, ?_, ?_, ?_⟩
    · rw [htr]
      simp
    · rw [countSave_cons, countSave_cons, countSave_cons, hsave]
      simp
    · rcases hb : env.delOk s.delN with _ | _
      · simp [maxLag, maxLagAux, isMutEv] at hlag ⊢
        omega
      · simp [maxLag, maxLagAux, isMutEv] at hlag ⊢
        omega
    · intro id hid
      have hid0 : id ≠ id0 := fun hh => hid (hh ▸ List.mem_cons_self _ _)
      have hidr : id ∉ rest := fun hh => hid (List.mem_cons_of_mem _ hh)
      rw [hother id hidr]
      exact findRow_updateRow_other _ _ _ _ hid0
    · intro id hid
      by_cases hmem2 : id ∈ rest
      · exact hmem id hmem2
      · have hid0 : id = id0 := by
          rcases List.mem_cons.mp hid with hh | hh
          · exact hh
          · exact absurd hh hmem2
        subst hid0
        refine ⟨l, eid, hl, ?_⟩
        rw [hother id hmem2]
        exact findRow_updateRow_self _ _ _ hr0

theorem modify_events_exn {env : Env} {s : St} {ids : List String} {c : LiveTable}
    (h : s.exn = true) : modify_events env s ids c = s :=
  (modify_events_loop_inv env c ids s).2.2.2 h

theorem run_unfold (env : Env) (today : Int) (s : St) :
    run env today s = runPhases env s := by
  have hadd : ∀ (s1 : St) (ids : List String),
      add_events_m env s1 ids (some env.live) = add_events env s1 ids env.live := by
    intro s1 ids
    by_cases h : s1.exn = true
    · simp [add_events_m, h, add_events]
    · simp [add_events_m, h, resolveCurrent]
  have hmod : ∀ (s3 : St) (ids : List String),
      modify_events_m env s3 ids (some env.live) = modify_events env s3 ids env.live := by
    intro s3 ids
    by_cases h : s3.exn = true
    · rw [show modify_events_m env s3 ids (some env.live) = s3 by simp [modify_events_m, h]]
      exact (modify_events_exn h).symm
    · simp [modify_events_m, h, resolveCurrent]
  unfold run runPhases
  simp only [get_live, get_new_m, get_deleted_m, get_modified_m, resolveCurrent]
  rw [hadd, hmod]

theorem add_events_fetchN (env : Env) (s : St) (ids : List String) (live : LiveTable) :
    (add_events env s ids live).fetchN = s.fetchN := by
  by_cases h : s.exn = true
  · simp [add_events, h]
  · by_cases h2 : ids.isEmpty = true
    · simp [add_events, h, h2]
    · rcases h3 : selectRows live ids with _ | rows
      · simp [add_events, h, h2, h3]
      · rw [show add_events env s ids live = add_events_loop env s rows by
          simp [add_events, h, h2, h3]]
        obtain ⟨d, _, hf, _⟩ := add_events_loop_master env rows s
        exact hf

theorem add_events_preserve {env : Env} {s : St} {ids : List String} {live : LiveTable}
    {id : String} {r0 : Row} (h : findRow s.stored id = some r0) :
    findRow (add_events env s ids live).stored id = some r0 := by
  by_cases h1 : s.exn = true
  · simpa [add_events, h1] using h
  · by_cases h2 : ids.isEmpty = true
    · simpa [add_events, h1, h2] using h
    · rcases h3 : selectRows live ids with _ | rows
      · simpa [add_events, h1, h2, h3] using h
      · rw [show add_events env s ids live = add_events_loop env s rows by
          simp [add_events, h1, h2, h3]]
        obtain ⟨d, _, _, _, _, _, _, _, hpres⟩ := add_events_loop_master env rows s
        exact hpres id r0 h

theorem add_events_countSkip_le (env : Env) (s : St) (ids : List String) (live : LiveTable) :
    ∃ d, (add_events env s ids live).trace = s.trace ++ d := by
  by_cases h1 : s.exn = true
  · exact ⟨[], by simp [add_events, h1]⟩
  · by_cases h2 : ids.isEmpty = true
    · exact ⟨[], by simp [add_events, h1, h2]⟩
    · rcases h3 : selectRows live ids with _ | rows
      · exact ⟨[], by simp [add_events, h1, h2, h3]⟩
      · rw [show add_events env s ids live = add_events_loop env s rows by
          simp [add_events, h1, h2, h3]]
        obtain ⟨d, htr, _⟩ := add_events_loop_master env rows s
        exact ⟨d, htr⟩

theorem remove_events_fetchN (env : Env) (s : St) (ids : List String) :
    (remove_events env s ids).fetchN = s.fetchN := by
  obtain ⟨hf, _, _, _, _⟩ := remove_events_loop_inv env ids s
  by_cases h : (remove_events_loop env s ids).exn = true
  · simpa [remove_events, h] using hf
  · rw [show remove_events env s ids
        = { remove_events_loop env s ids with
            trace := (remove_events_loop env s ids).trace ++ [Ev.save] } by
      simp [remove_events, h]]
    exact hf

theorem remove_events_countSkip (env : Env) (s : St) (ids : List String) :
    countSkip (remove_events env s ids).trace = countSkip s.trace := by
  obtain ⟨_, _, hskip, _, _⟩ := remove_events_loop_inv env ids s
  by_cases h : (remove_events_loop env s ids).exn = true
  · simpa [remove_events, h] using hskip
  · rw [show remove_events env s ids
        = { remove_events_loop env s ids with
            trace := (remove_events_loop env s ids).trace ++ [Ev.save] } by
      simp [remove_events, h]]
    rw [show countSkip ((remove_events_loop env s ids).trace ++ [Ev.save])
          = countSkip (remove_events_loop env s ids).trace by
      simp [countSkip, List.countP_append, List.countP_cons]]
    exact hskip

theorem remove_events_preserve {env : Env} {s : St} {ids : List String} {id : String}
    (h : id ∉ ids) :
    findRow (remove_events env s ids).stored id = findRow s.stored id := by
  obtain ⟨_, _, _, hfind, _⟩ := remove_events_loop_inv env ids s
  by_cases hx : (remove_events_loop env s ids).exn = true
  · simpa [remove_events, hx] using hfind id h
  · rw [show remove_events env s ids
        = { remove_events_loop env s ids with
            trace := (remove_events_loop env s ids).trace ++ [Ev.save] } by
      simp [remove_events, hx]]
    exact hfind id h

theorem selectRows_ok (live : LiveTable) (ids : List String)
    (h : ∀ i ∈ ids, (findLive live i).isSome = true) :
    ∃ rows, selectRows live ids = some rows ∧ rows.map Prod.fst = ids
      ∧ ∀ p ∈ rows, findLive live p.1 = some p.2 := by
  induction ids with
  | nil => exact ⟨[], rfl, rfl, by simp⟩
  | cons id rest ih =>
    have h1 : (findLive live id).isSome = true := h id (List.mem_cons_self _ _)
    rcases hl : findLive live id with _ | l
    · rw [hl] at h1
      simp at h1
    obtain ⟨rows, hsel, hmap, hmem⟩ := ih (fun i hi => h i (List.mem_cons_of_mem _ hi))
    refine ⟨(id, l) :: rows, ?_, ?_, ?_⟩
    · simp [selectRows, hl, hsel]
    · simp [hmap]
    · intro p hp
      rcases List.mem_cons.mp hp with hp | hp
      · subst hp
        exact hl
      · exact hmem p hp

theorem countSkip_append (a b : List Ev) :
    countSkip (a ++ b) = countSkip a + countSkip b :=
  List.countP_append _ _ _

theorem add_events_loop_noskip (env : Env) (rows : List (String × LiveRow)) :
    ∀ s : St, s.exn = false →
      (∀ n, ∃ e, env.addRes n = AddOutcome.ok e) →
      countSkip (add_events_loop env s rows).trace = countSkip s.trace →
      keysR (add_events_loop env s rows).stored = keysR s.stored ++ rows.map Prod.fst
      ∧ (∀ id l, (id, l) ∈ rows
           → ∃ e, findRow (add_events_loop env s rows).stored id = some (toRow l (some e))) := by
  induction rows with
  | nil =>
    intro s _ _ _
    refine ⟨by simp [add_events_loop], ?_⟩
    intro id l hmem
    simp at hmem
  | cons p rest ih =>
    obtain ⟨id0, l0⟩ := p
    intro s hexn hok hskip
    by_cases h1 : duplicateExists s.stored l0 = true
    · exfalso
      rw [add_loop_skip_dup h1] at hskip
      obtain ⟨d, htr, _⟩ :=
        add_events_loop_master env rest { s with trace := s.trace ++ [Ev.skipped id0] }
      rw [htr] at hskip
      simp [countSkip, List.countP_append, List.countP_cons] at hskip
    · rw [Bool.not_eq_true] at h1
      by_cases h2 : (findRow s.stored id0).isSome = true
      · exfalso
        rw [add_loop_skip_present h1 h2] at hskip
        obtain ⟨d, htr, _⟩ :=
          add_events_loop_master env rest { s with trace := s.trace ++ [Ev.skipped id0] }
        rw [htr] at hskip
        simp [countSkip, List.countP_append, List.countP_cons] at hskip
      · have h2none : findRow s.stored id0 = none := by
          rcases hfr : findRow s.stored id0 with _ | r
          · rfl
          · rw [hfr] at h2
            simp at h2
        have h2b : (findRow s.stored id0).isSome = false := by
          rw [h2none]
          rfl
        obtain ⟨eid, ha⟩ := hok s.addN
        rw [add_loop_ok h1 h2b ha] at hskip ⊢
        set s2 : St := { s with addN := s.addN + 1, succC := s.succC + 1, stored := s.stored ++ [(id0, toRow l0 (some eid))], trace := s.trace ++ [Ev.calAdd (some eid), Ev.save] } with hs2
        have htr2 : countSkip s2.trace = countSkip s.trace := by
          rw [hs2]
          simp [countSkip, List.countP_append, List.countP_cons]
        have hskip2 : countSkip (add_events_loop env s2 rest).trace = countSkip s2.trace := by
          obtain ⟨d, htr, _⟩ := add_events_loop_master env rest s2
          rw [htr, countSkip_append] at hskip ⊢
          rw [htr2] at hskip ⊢
          omega
        obtain ⟨hkeys, hnew⟩ := ih s2 hexn hok hskip2
        have hs2stored : s2.stored = s.stored ++ [(id0, toRow l0 (some eid))] := by
          rw [hs2]
        constructor
        · rw [hkeys, hs2stored]
          rw [show keysR (s.stored ++ [(id0, toRow l0 (some eid))])
                = keysR s.stored ++ [id0] by simp [keysR]]
          simp
        · intro id l hmem
          rcases List.mem_cons.mp hmem with hh | hh
          · have hid : id = id0 := congrArg Prod.fst hh
            have hl : l = l0 := congrArg Prod.snd hh
            subst hid
            subst hl
            refine ⟨eid, ?_⟩
            obtain ⟨d, _, _, _, _, _, _, _, hpres⟩ := add_events_loop_master env rest s2
            refine hpres id (toRow l (some eid)) ?_
            rw [hs2stored]
            rw [findRow_append_right h2none]
            simp [findRow]
          · exact hnew id l hh

theorem add_events_char_noskip (env : Env) (s : St) (ids : List String) (live : LiveTable)
    (hexn : s.exn = false)
    (hok : ∀ n, ∃ e, env.addRes n = AddOutcome.ok e)
    (hlive : ∀ i ∈ ids, (findLive live i).isSome = true)
    (hskip : countSkip (add_events env s ids live).trace = countSkip s.trace) :
    (add_events env s ids live).exn = false
    ∧ keysR (add_events env s ids live).stored = keysR s.stored ++ ids
    ∧ (∀ id r0, findRow s.stored id = some r0
         → findRow (add_events env s ids live).stored id = some r0)
    ∧ (∀ id, id ∈ ids → ∃ l e, findLive live id = some l
         ∧ findRow (add_events env s ids live).stored id = some (toRow l (some e))) := by
  by_cases h2 : ids.isEmpty = true
  · have hids : ids = [] := List.isEmpty_iff.mp h2
    subst hids
    rw [show add_events env s [] live = s by simp [add_events, hexn]] at hskip ⊢
    refine ⟨hexn, by simp, fun id r0 h => h, ?_⟩
    intro id hid
    simp at hid
  · obtain ⟨rows, hsel, hmap, hrows⟩ := selectRows_ok live ids hlive
    have heq : add_events env s ids live = add_events_loop env s rows := by
      simp [add_events, hexn, h2, hsel]
    rw [heq] at hskip ⊢
    obtain ⟨d, htr, hf, hex, _, _, _, _, hpres⟩ := add_events_loop_master env rows s
    obtain ⟨hkeys, hnew⟩ := add_events_loop_noskip env rows s hexn hok hskip
    refine ⟨by rw [hex]; exact hexn, by rw [hkeys, hmap], hpres, ?_⟩
    intro id hid
    rw [← hmap] at hid
    obtain ⟨p, hp, hpid⟩ := List.mem_map.mp hid
    obtain ⟨e, he⟩ := hnew p.1 p.2 (by rw [show (p.1, p.2) = p from rfl]; exact hp)
    exact ⟨p.2, e, by rw [← hpid]; exact hrows p hp, by rw [← hpid]; exact he⟩

theorem remove_events_char (env : Env) (s : St) (ids : List String)
    (hexn : s.exn = false) (hnd : ids.Nodup) (hmem : ∀ i ∈ ids, i ∈ keysR s.stored) :
    ∃ d : List Ev,
      (remove_events env s ids).trace = s.trace ++ (d ++ [Ev.save])
      ∧ (remove_events env s ids).exn = false
      ∧ countSave d = 0
      ∧ countDel d = ids.length
      ∧ (∀ id, findRow (remove_events env s ids).stored id
           = if id ∈ ids then none else findRow s.stored id)
      ∧ ((keysR s.stored).Nodup → (keysR (remove_events env s ids).stored).Nodup) := by
  obtain ⟨d, htr, hex, hsave, hdel, hfind, hndk⟩ :=
    remove_events_loop_char env ids s hexn hnd hmem
  have hx : (remove_events_loop env s ids).exn = true → False := by
    intro h
    rw [hex] at h
    exact absurd h (by simp)
  have heq : remove_events env s ids
      = { remove_events_loop env s ids with
          trace := (remove_events_loop env s ids).trace ++ [Ev.save] } := by
    simp only [remove_events]
    rw [if_neg hx]
  rw [heq]
  refine ⟨d, ?_, hex, hsave, hdel, hfind, hndk⟩
  rw [show ({ remove_events_loop env s ids with
        trace := (remove_events_loop env s ids).trace ++ [Ev.save] } : St).trace
      = (remove_events_loop env s ids).trace ++ [Ev.save] from rfl]
  rw [htr]
  simp

theorem mem_get_modified_keys {stored : StoredTable} {live : LiveTable} {id : String}
    (h : id ∈ get_modified stored live) :
    id ∈ keysR stored ∧ (findLive live id).isSome = true := by
  obtain ⟨p, hp, hpid⟩ := List.mem_map.mp h
  obtain ⟨hmem, hfil⟩ := List.mem_filter.mp hp
  subst hpid
  refine ⟨mem_keysR_of_mem hmem, ?_⟩
  rcases hl : findLive live p.1 with _ | l
  · rw [hl] at hfil
    simp [modifiedFilter] at hfil
  · rfl

theorem mem_get_modified_of_filter {stored : StoredTable} {live : LiveTable} {id : String}
    {r : Row} (hmem : (id, r) ∈ stored)
    (hfil : modifiedFilter r (findLive live id) = true) :
    id ∈ get_modified stored live := by
  refine List.mem_map.mpr ⟨(id, r), List.mem_filter.mpr ⟨hmem, hfil⟩, rfl⟩

theorem modifiedFilter_toRow_self (l : LiveRow) (e : Option String) :
    modifiedFilter (toRow l e) (some l) = false := by
  rcases hl : l.last_edit with _ | x
  · simp [modifiedFilter, toRow, hl]
  · simp [modifiedFilter, toRow, hl, dtNe]

theorem modify_events_char (env : Env) (s : St) (ids : List String) (c : LiveTable)
    (hexn : s.exn = false)
    (hok : ∀ n, ∃ e, env.addRes n = AddOutcome.ok e)
    (hpre : ∀ i ∈ ids, (findLive c i).isSome = true ∧ i ∈ keysR s.stored) :
    ∃ d : List Ev,
      (modify_events env s ids c).trace = s.trace ++ d
      ∧ (modify_events env s ids c).exn = false
      ∧ countSave d = ids.length
      ∧ maxLag d ≤ 2
      ∧ (∀ id, id ∉ ids → findRow (modify_events env s ids c).stored id
           = findRow s.stored id)
      ∧ (∀ id ∈ ids, ∃ l e, findLive c id = some l
           ∧ findRow (modify_events env s ids c).stored id = some (toRow l (some e))) :=
  modify_events_loop_char env c ids s hexn hok hpre

theorem modify_events_keysR (env : Env) (s : St) (ids : List String) (c : LiveTable) :
    keysR (modify_events env s ids c).stored = keysR s.stored :=
  (modify_events_loop_inv env c ids s).2.2.1

theorem modify_events_countSkip (env : Env) (s : St) (ids : List String) (c : LiveTable) :
    countSkip (modify_events env s ids c).trace = countSkip s.trace :=
  (modify_events_loop_inv env c ids s).2.1

theorem modify_events_fetchN (env : Env) (s : St) (ids : List String) (c : LiveTable) :
    (modify_events env s ids c).fetchN = s.fetchN :=
  (modify_events_loop_inv env c ids s).1

theorem run_char (env : Env) (today : Int) (s : St)
    (hok : ∀ n, ∃ e, env.addRes n = AddOutcome.ok e)
    (hexn : s.exn = false)
    (hndS : (keysR s.stored).Nodup)
    (hndL : (keysL env.live).Nodup)
    (hskip : countSkip (run env today s).trace = countSkip s.trace) :
    (run env today s).exn = false
    ∧ (∀ id, (findRow (run env today s).stored id).isSome = true ↔ id ∈ keysL env.live)
    ∧ (∀ id r, findRow (run env today s).stored id = some r
         → modifiedFilter r (findLive env.live id) = false)
    ∧ (keysR (run env today s).stored).Nodup := by
  have hrp : runPhases env s = modify_events env (remove_events env (add_events env { s with fetchN := s.fetchN + 1 } (get_new s.stored env.live) env.live) (get_deleted (add_events env { s with fetchN := s.fetchN + 1 } (get_new s.stored env.live) env.live).stored env.live)) (get_modified (remove_events env (add_events env { s with fetchN := s.fetchN + 1 } (get_new s.stored env.live) env.live) (get_deleted (add_events env { s with fetchN := s.fetchN + 1 } (get_new s.stored env.live) env.live).stored env.live)).stored env.live) env.live := rfl
  rw [run_unfold, hrp] at hskip ⊢
  set s1 : St := { s with fetchN := s.fetchN + 1 } with hs1
  set S1 : St := add_events env s1 (get_new s.stored env.live) env.live with hS1
  set S2 : St := remove_events env S1 (get_deleted S1.stored env.live) with hS2
  have hnews_nd : (get_new s.stored env.live).Nodup := List.Nodup.filter _ hndL
  have hnews_live : ∀ i ∈ get_new s.stored env.live, (findLive env.live i).isSome = true := by
    intro i hi
    exact (mem_keysL_iff_findLive_isSome _ _).mp ((mem_get_new_iff s.stored env.live i).mp hi).1
  have hskip_S2 : countSkip (modify_events env S2
      (get_modified S2.stored env.live) env.live).trace = countSkip S2.trace :=
    modify_events_countSkip env S2 _ _
  have hskip_S1 : countSkip S2.trace = countSkip S1.trace := by
    rw [hS2]
    exact remove_events_countSkip env S1 _
  have hskip_add : countSkip S1.trace = countSkip s1.trace := by
    rw [hskip_S2, hskip_S1] at hskip
    exact hskip
  obtain ⟨hA_exn, hA_keys, hA_pres, hA_new⟩ :=
    add_events_char_noskip env s1 (get_new s.stored env.live) env.live hexn hok
      hnews_live (by rw [← hS1]; exact hskip_add)
  rw [← hS1] at hA_exn hA_keys hA_pres hA_new
  have hS1nd : (keysR S1.stored).Nodup := by
    rw [hA_keys]
    refine List.Nodup.append hndS hnews_nd ?_
    intro a ha1 ha2
    exact ((mem_get_new_iff s.stored env.live a).mp ha2).2 ha1
  have hdels_nd : (get_deleted S1.stored env.live).Nodup := List.Nodup.filter _ hS1nd
  have hdels_mem : ∀ i ∈ get_deleted S1.stored env.live, i ∈ keysR S1.stored := by
    intro i hi
    exact ((mem_get_deleted_iff _ _ _).mp hi).1
  obtain ⟨dB, hB_tr, hB_exn, hB_save, hB_del, hB_find, hB_nd⟩ :=
    remove_events_char env S1 (get_deleted S1.stored env.live) hA_exn hdels_nd hdels_mem
  rw [← hS2] at hB_tr hB_exn hB_find hB_nd
  have hmods_pre : ∀ i ∈ get_modified S2.stored env.live,
      (findLive env.live i).isSome = true ∧ i ∈ keysR S2.stored := by
    intro i hi
    obtain ⟨h1, h2⟩ := mem_get_modified_keys hi
    exact ⟨h2, h1⟩
  obtain ⟨dC, hC_tr, hC_exn, hC_save, hC_lag, hC_other, hC_mem⟩ :=
    modify_events_char env S2 (get_modified S2.stored env.live) env.live hB_exn hok hmods_pre
  refine ⟨hC_exn, ?_, ?_, ?_⟩
  · intro id
    constructor
    · intro hid
      by_cases hm : id ∈ get_modified S2.stored env.live
      · obtain ⟨l, e, hl, _⟩ := hC_mem id hm
        rw [mem_keysL_iff_findLive_isSome, hl]
        rfl
      · rw [hC_other id hm, hB_find id] at hid
        by_cases hd : id ∈ get_deleted S1.stored env.live
        · rw [if_pos hd] at hid
          simp at hid
        · rw [if_neg hd] at hid
          by_contra hnotlive
          refine hd ((mem_get_deleted_iff _ _ _).mpr
            ⟨(mem_keysR_iff_findRow_isSome _ _).mpr hid, hnotlive⟩)
    · intro hid
      have hS1some : (findRow S1.stored id).isSome = true := by
        rcases hfr : findRow s.stored id with _ | r0
        · have hidnews : id ∈ get_new s.stored env.live :=
            (mem_get_new_iff _ _ _).mpr ⟨hid, (findRow_eq_none_iff _ _).mp hfr⟩
          obtain ⟨l, e, _, hrow⟩ := hA_new id hidnews
          rw [hrow]
          rfl
        · rw [hA_pres id r0 hfr]
          rfl
      have hnotdel : id ∉ get_deleted S1.stored env.live := by
        intro hd
        exact ((mem_get_deleted_iff _ _ _).mp hd).2 hid
      have hS2some : (findRow S2.stored id).isSome = true := by
        rw [hB_find id, if_neg hnotdel]
        exact hS1some
      by_cases hm : id ∈ get_modified S2.stored env.live
      · obtain ⟨l, e, _, hrow⟩ := hC_mem id hm
        rw [hrow]
        rfl
      · rw [hC_other id hm]
        exact hS2some
  · intro id r h3
    by_cases hm : id ∈ get_modified S2.stored env.live
    · obtain ⟨l, e, hl, hrow⟩ := hC_mem id hm
      rw [h3] at hrow
      have hr : r = toRow l (some e) := Option.some_inj.mp hrow
      subst hr
      rw [hl]
      exact modifiedFilter_toRow_self l (some e)
    · rw [hC_other id hm] at h3
      by_contra hfil
      rw [Bool.not_eq_false] at hfil
      exact hm (mem_get_modified_of_filter (findRow_some_mem h3) hfil)
  · rw [modify_events_keysR]
    exact hB_nd hS1nd

theorem modifiedFilter_eq_amendedRow (r : Row) (l : LiveRow) :
    modifiedFilter r (some l) = modifiedAmendedRow r l := by
  rcases hr : r.last_edit with _ | x <;> rcases hl : l.last_edit with _ | y <;>
    simp [modifiedFilter, modifiedAmendedRow, dtNe, hr, hl]

theorem add_events_nil (env : Env) (s : St) (live : LiveTable) :
    add_events env s [] live = s := by
  by_cases h : s.exn = true <;> simp [add_events, h]

theorem remove_events_nil_noexn (env : Env) (s : St) (h : s.exn = false) :
    remove_events env s [] = { s with trace := s.trace ++ [Ev.save] } := by
  simp [remove_events, remove_events_loop, h]

theorem modify_events_nil (env : Env) (s : St) (c : LiveTable) :
    modify_events env s [] c = s := rfl

theorem runPhases_fetchN (env : Env) (s : St) :
    (runPhases env s).fetchN = s.fetchN + 1 := by
  have hrp : runPhases env s = modify_events env (remove_events env (add_events env { s with fetchN := s.fetchN + 1 } (get_new s.stored env.live) env.live) (get_deleted (add_events env { s with fetchN := s.fetchN + 1 } (get_new s.stored env.live) env.live).stored env.live)) (get_modified (remove_events env (add_events env { s with fetchN := s.fetchN + 1 } (get_new s.stored env.live) env.live) (get_deleted (add_events env { s with fetchN := s.fetchN + 1 } (get_new s.stored env.live) env.live).stored env.live)).stored env.live) env.live := rfl
  rw [hrp, modify_events_fetchN, remove_events_fetchN, add_events_fetchN]

theorem runPhases_survives (env : Env) (s : St) (id : String)
    (h1 : id ∈ keysR s.stored) (h2 : id ∈ keysL env.live) :
    id ∈ keysR (runPhases env s).stored := by
  have hrp : runPhases env s = modify_events env (remove_events env (add_events env { s with fetchN := s.fetchN + 1 } (get_new s.stored env.live) env.live) (get_deleted (add_events env { s with fetchN := s.fetchN + 1 } (get_new s.stored env.live) env.live).stored env.live)) (get_modified (remove_events env (add_events env { s with fetchN := s.fetchN + 1 } (get_new s.stored env.live) env.live) (get_deleted (add_events env { s with fetchN := s.fetchN + 1 } (get_new s.stored env.live) env.live).stored env.live)).stored env.live) env.live := rfl
  rw [hrp]
  set s1 : St := { s with fetchN := s.fetchN + 1 } with hs1
  set S1 : St := add_events env s1 (get_new s.stored env.live) env.live with hS1
  obtain ⟨r0, hr0⟩ := Option.isSome_iff_exists.mp ((mem_keysR_iff_findRow_isSome _ _).mp h1)
  have hA : findRow S1.stored id = some r0 := by
    rw [hS1]
    exact add_events_preserve hr0
  have hnotdel : id ∉ get_deleted S1.stored env.live := by
    intro hd
    exact ((mem_get_deleted_iff _ _ _).mp hd).2 h2
  have hB : findRow (remove_events env S1 (get_deleted S1.stored env.live)).stored id
      = some r0 := by
    rw [remove_events_preserve hnotdel]
    exact hA
  rw [modify_events_keysR, mem_keysR_iff_findRow_isSome, hB]
  rfl

theorem add_events_loop_lag (env : Env) (rows : List (String × LiveRow))
    (hok : ∀ n, ∃ e, env.addRes n = AddOutcome.ok e) :
    ∀ s : St, ∃ d : List Ev,
      (add_events_loop env s rows).trace = s.trace ++ d
      ∧ maxLag d ≤ 1
      ∧ countSave d = countOkAdd d := by
  induction rows with
  | nil =>
    intro s
    refine ⟨[], by simp [add_events_loop], by simp [maxLag, maxLagAux], ?_⟩
    simp [countSave, countOkAdd]
  | cons p rest ih =>
    obtain ⟨id0, l0⟩ := p
    intro s
    by_cases h1 : duplicateExists s.stored l0 = true
    · obtain ⟨d, htr, hlag, hcnt⟩ := ih { s with trace := s.trace ++ [Ev.skipped id0] }
      rw [add_loop_skip_dup h1]
      refine ⟨Ev.skipped id0 :: d, ?_, ?_, ?_⟩
      · rw [htr]
        simp
      · simp only [maxLag, maxLagAux, isMutEv] at hlag ⊢
        simp at hlag ⊢
        omega
      · simp [countSave, countOkAdd, List.countP_cons] at hcnt ⊢
        omega
    · rw [Bool.not_eq_true] at h1
      by_cases h2 : (findRow s.stored id0).isSome = true
      · obtain ⟨d, htr, hlag, hcnt⟩ := ih { s with trace := s.trace ++ [Ev.skipped id0] }
        rw [add_loop_skip_present h1 h2]
        refine ⟨Ev.skipped id0 :: d, ?_, ?_, ?_⟩
        · rw [htr]
          simp
        · simp only [maxLag, maxLagAux, isMutEv] at hlag ⊢
          simp at hlag ⊢
          omega
        · simp [countSave, countOkAdd, List.countP_cons] at hcnt ⊢
          omega
      · have h2b : (findRow s.stored id0).isSome = false := by
          rcases hfr : findRow s.stored id0 with _ | r
          · rfl
          · rw [hfr] at h2
            simp at h2
        obtain ⟨eid, ha⟩ := hok s.addN
        rw [add_loop_ok h1 h2b ha]
        obtain ⟨d, htr, hlag, hcnt⟩ := ih { s with addN := s.addN + 1, succC := s.succC + 1, stored := s.stored ++ [(id0, toRow l0 (some eid))], trace := s.trace ++ [Ev.calAdd (some eid), Ev.save] }
        refine ⟨Ev.calAdd (some eid) :: Ev.save :: d, ?_, ?_, ?_⟩
        · rw [htr]
          simp
        · simp only [maxLag, maxLagAux, isMutEv] at hlag ⊢
          simp at hlag ⊢
          omega
        · simp [countSave, countOkAdd, List.countP_cons] at hcnt ⊢
          omega

theorem remove_loop_delOk_irrelevant (env1 env2 : Env) (ids : List String) :
    ∀ s1 s2 : St, s1.stored = s2.stored → s1.delN = s2.delN → s1.exn = s2.exn →
      (remove_events_loop env1 s1 ids).stored = (remove_events_loop env2 s2 ids).stored
      ∧ (remove_events_loop env1 s1 ids).delN = (remove_events_loop env2 s2 ids).delN
      ∧ (remove_events_loop env1 s1 ids).exn = (remove_events_loop env2 s2 ids).exn := by
  induction ids with
  | nil =>
    intro s1 s2 hst hdn hex
    exact ⟨hst, hdn, hex⟩
  | cons id0 rest ih =>
    intro s1 s2 hst hdn hex
    by_cases hexn : s1.exn = true
    · rw [remove_loop_exn hexn, remove_loop_exn (hex ▸ hexn)]
      exact ⟨hst, hdn, hex⟩
    · rw [Bool.not_eq_true] at hexn
      have hexn2 : s2.exn = false := hex ▸ hexn
      rcases hr : findRow s1.stored id0 with _ | r
      · have hr2 : findRow s2.stored id0 = none := by
          rw [← hst]
          exact hr
        rw [remove_loop_missing hexn hr, remove_loop_missing hexn2 hr2]
        exact ⟨hst, hdn, rfl⟩
      · have hr2 : findRow s2.stored id0 = some r := by
          rw [← hst]
          exact hr
        rw [remove_loop_step hexn hr, remove_loop_step hexn2 hr2]
        refine ih _ _ ?_ ?_ ?_
        · show eraseKey s1.stored id0 = eraseKey s2.stored id0
          rw [hst]
        · show s1.delN + 1 = s2.delN + 1
          rw [hdn]
        · exact hex

theorem modify_loop_delOk_irrelevant (env1 env2 : Env) (c : LiveTable) (ids : List String)
    (haddRes : env1.addRes = env2.addRes) :
    ∀ s1 s2 : St, s1.stored = s2.stored → s1.delN = s2.delN → s1.addN = s2.addN
      → s1.exn = s2.exn →
      (modify_events_loop env1 s1 c ids).stored = (modify_events_loop env2 s2 c ids).stored
      ∧ (modify_events_loop env1 s1 c ids).exn = (modify_events_loop env2 s2 c ids).exn := by
  induction ids with
  | nil =>
    intro s1 s2 hst hdn han hex
    exact ⟨hst, hex⟩
  | cons id0 rest ih =>
    intro s1 s2 hst hdn han hex
    by_cases hexn : s1.exn = true
    · rw [modify_loop_exn hexn, modify_loop_exn (hex ▸ hexn)]
      exact ⟨hst, hex⟩
    · rw [Bool.not_eq_true] at hexn
      have hexn2 : s2.exn = false := hex ▸ hexn
      rcases hl : findLive c id0 with _ | l
      · rw [modify_loop_noLive hexn hl, modify_loop_noLive hexn2 hl]
        exact ⟨hst, rfl⟩
      rcases hr : findRow s1.stored id0 with _ | r
      · have hr2 : findRow s2.stored id0 = none := by
          rw [← hst]
          exact hr
        rw [modify_loop_noRow hexn hl hr, modify_loop_noRow hexn2 hl hr2]
        exact ⟨hst, rfl⟩
      · have hr2 : findRow s2.stored id0 = some r := by
          rw [← hst]
          exact hr
        rcases ha : env1.addRes s1.addN with eid | _ | _
        · have ha2 : env2.addRes s2.addN = AddOutcome.ok eid := by
            rw [← haddRes, ← han]
            exact ha
          rw [modify_loop_ok hexn hl hr ha, modify_loop_ok hexn2 hl hr2 ha2]
          refine ih _ _ ?_ ?_ ?_ ?_
          · show updateRow s1.stored id0 (toRow l (some eid))
                = updateRow s2.stored id0 (toRow l (some eid))
            rw [hst]
          · show s1.delN + 1 = s2.delN + 1
            rw [hdn]
          · show s1.addN + 1 = s2.addN + 1
            rw [han]
          · exact hex
        · have ha2 : env2.addRes s2.addN = AddOutcome.noId := by
            rw [← haddRes, ← han]
            exact ha
          rw [modify_loop_noId hexn hl hr ha, modify_loop_noId hexn2 hl hr2 ha2]
          refine ih _ _ ?_ ?_ ?_ ?_
          · show updateRow s1.stored id0 (toRow l none)
                = updateRow s2.stored id0 (toRow l none)
            rw [hst]
          · show s1.delN + 1 = s2.delN + 1
            rw [hdn]
          · show s1.addN + 1 = s2.addN + 1
            rw [han]
          · exact hex
        · have ha2 : env2.addRes s2.addN = AddOutcome.err := by
            rw [← haddRes, ← han]
            exact ha
          rw [modify_loop_err hexn hl hr ha, modify_loop_err hexn2 hl hr2 ha2]
          exact ⟨hst, rfl⟩

theorem remove_events_delOk_irrelevant (env1 env2 : Env) (s : St) (ids : List String) :
    (remove_events env1 s ids).stored = (remove_events env2 s ids).stored
    ∧ (remove_events env1 s ids).exn = (remove_events env2 s ids).exn := by
  obtain ⟨hst, _, hex⟩ := remove_loop_delOk_irrelevant env1 env2 ids s s rfl rfl rfl
  by_cases h : (remove_events_loop env1 s ids).exn = true
  · have h2 : (remove_events_loop env2 s ids).exn = true := hex ▸ h
    simp [remove_events, h, h2, hst, hex]
  · have h2 : ¬ (remove_events_loop env2 s ids).exn = true := fun hh => h (hex ▸ hh)
    simp [remove_events, h, h2, hst, hex]

theorem run_second_trivial (env : Env) (today2 : Int) (R : St)
    (hx : R.exn = false)
    (hnew : get_new R.stored env.live = [])
    (hdel : get_deleted R.stored env.live = [])
    (hmod : get_modified R.stored env.live = []) :
    run env today2 R = { R with fetchN := R.fetchN + 1, trace := R.trace ++ [Ev.save] } := by
  rw [run_unfold]
  have hrp : runPhases env R = modify_events env (remove_events env (add_events env { R with fetchN := R.fetchN + 1 } (get_new R.stored env.live) env.live) (get_deleted (add_events env { R with fetchN := R.fetchN + 1 } (get_new R.stored env.live) env.live).stored env.live)) (get_modified (remove_events env (add_events env { R with fetchN := R.fetchN + 1 } (get_new R.stored env.live) env.live) (get_deleted (add_events env { R with fetchN := R.fetchN + 1 } (get_new R.stored env.live) env.live).stored env.live)).stored env.live) env.live := rfl
  rw [hrp, hnew, add_events_nil]
  have hs1stored : ({ R with fetchN := R.fetchN + 1 } : St).stored = R.stored := rfl
  rw [hs1stored, hdel]
  rw [remove_events_nil_noexn env _ (show ({ R with fetchN := R.fetchN + 1 } : St).exn = false from hx)]
  have hrec : ({ ({ R with fetchN := R.fetchN + 1 } : St) with trace := ({ R with fetchN := R.fetchN + 1 } : St).trace ++ [Ev.save] } : St) = { R with fetchN := R.fetchN + 1, trace := R.trace ++ [Ev.save] } := rfl
  rw [hrec]
  have hs2stored : ({ R with fetchN := R.fetchN + 1, trace := R.trace ++ [Ev.save] } : St).stored = R.stored := rfl
  rw [hs2stored, hmod, modify_events_nil]

/-- Claim C1: `Database.run` fetches the live snapshot exactly once at the
start of each invocation and then applies the three phases in the fixed
order additions, removals, modifications, every classification computed
against that single snapshot (`runPhases`).  The run is independent of the
clock, and an id that is both stored and still live is never removed, so the
outdated-eviction phase is not executed. -/
theorem run_single_fetch_fixed_order (env : Env) (today : Int) (s : St) :
    (run env today s).fetchN = s.fetchN + 1
    ∧ run env today s = runPhases env s
    ∧ (∀ t1 t2 : Int, run env t1 s = run env t2 s)
    ∧ (∀ id, id ∈ keysR s.stored → id ∈ keysL env.live
         → id ∈ keysR (run env today s).stored) := by
  refine ⟨?_, run_unfold env today s, fun t1 t2 => rfl, ?_⟩
  · rw [run_unfold]
    exact runPhases_fetchN env s
  · intro id h1 h2
    rw [run_unfold]
    exact runPhases_survives env s id h1 h2

/-- Witness for claim C1 at a concrete state and environment. -/
theorem run_single_fetch_fixed_order_witness :
    (run envAllOk 0 (initSt exStored2)).fetchN = (initSt exStored2).fetchN + 1
    ∧ "A" ∈ keysR (run envAllOk 0 (initSt exStored2)).stored :=
  ⟨(run_single_fetch_fixed_order envAllOk 0 (initSt exStored2)).1,
   (run_single_fetch_fixed_order envAllOk 0 (initSt exStored2)).2.2.2 "A"
     (by decide) (by decide)⟩

/-- Claim C2: `Database.get_new` returns exactly the live ids absent from
the stored table, `Database.get_deleted` returns exactly the stored ids
absent from the live table, and the two sets are disjoint. -/
theorem get_new_get_deleted_partition (stored : StoredTable) (live : LiveTable)
    (id : String) :
    (id ∈ get_new stored live ↔ id ∈ keysL live ∧ id ∉ keysR stored)
    ∧ (id ∈ get_deleted stored live ↔ id ∈ keysR stored ∧ id ∉ keysL live)
    ∧ ¬ (id ∈ get_new stored live ∧ id ∈ get_deleted stored live) := by
  refine ⟨mem_get_new_iff _ _ _, mem_get_deleted_iff _ _ _, ?_⟩
  rintro ⟨h1, h2⟩
  exact ((mem_get_new_iff _ _ _).mp h1).2 ((mem_get_deleted_iff _ _ _).mp h2).1

/-- Witness for claim C2 at concrete tables. -/
theorem get_new_get_deleted_partition_witness :
    ("A" ∈ get_new (initSt []).stored exLive2 ↔ "A" ∈ keysL exLive2 ∧ "A" ∉ keysR (initSt []).stored)
    ∧ ("A" ∈ get_deleted (initSt []).stored exLive2 ↔ "A" ∈ keysR (initSt []).stored ∧ "A" ∉ keysL exLive2)
    ∧ ¬ ("A" ∈ get_new (initSt []).stored exLive2 ∧ "A" ∈ get_deleted (initSt []).stored exLive2) :=
  get_new_get_deleted_partition (initSt []).stored exLive2 "A"

/-- Counterexample to claim C3 as stated: both tables hold the id A with a
null (NaT) start date on each side, equal titles and end dates, and
different non-null last edits.  The pandas filter of
`Database.get_modified` treats NaT as differing from NaT, so A is
classified modified, while the claim reads the field comparison as plain
value disequality and requires A not to be modified. -/
theorem get_modified_null_date_counterexample :
    "A" ∈ get_modified natStored natLive
    ∧ modifiedClaimB natStored natLive "A" = false := by decide

/-- Claim C3 (amended): over tables with unique ids, an id is returned by
`Database.get_modified` exactly when it is present on both sides, the two
last edits differ, at least one of title, start date, end date differs where
a date that is null (NaT) on either side always counts as differing, and
neither last edit is null. -/
theorem get_modified_iff_both_signals (stored : StoredTable) (live : LiveTable)
    (id : String) (hnd : (keysR stored).Nodup) :
    id ∈ get_modified stored live ↔ modifiedAmendedB stored live id = true := by
  rcases hfr : findRow stored id with _ | r
  · rw [show modifiedAmendedB stored live id = false by simp [modifiedAmendedB, hfr]]
    constructor
    · intro h
      exact absurd (mem_get_modified_keys h).1 ((findRow_eq_none_iff _ _).mp hfr)
    · intro h
      simp at h
  · rcases hfl : findLive live id with _ | l
    · rw [show modifiedAmendedB stored live id = false by simp [modifiedAmendedB, hfr, hfl]]
      constructor
      · intro h
        exfalso
        obtain ⟨p, hp, hpid⟩ := List.mem_map.mp h
        obtain ⟨hmem, hfil⟩ := List.mem_filter.mp hp
        rw [hpid, hfl] at hfil
        simp [modifiedFilter] at hfil
      · intro h
        simp at h
    · rw [show modifiedAmendedB stored live id = modifiedAmendedRow r l by
        simp [modifiedAmendedB, hfr, hfl]]
      rw [← modifiedFilter_eq_amendedRow]
      constructor
      · intro h
        obtain ⟨p, hp, hpid⟩ := List.mem_map.mp h
        obtain ⟨hmem, hfil⟩ := List.mem_filter.mp hp
        have hfind : findRow stored p.1 = some p.2 :=
          findRow_eq_of_mem_nodup hnd (by rw [show (p.1, p.2) = p from rfl]; exact hmem)
        rw [hpid] at hfind hfil
        rw [hfr] at hfind
        rw [← Option.some_inj.mp hfind, hfl] at hfil
        exact hfil
      · intro h
        refine mem_get_modified_of_filter (findRow_some_mem hfr) ?_
        rw [hfl]
        exact h

/-- Witness for the amended claim C3 at concrete tables. -/
theorem get_modified_iff_both_signals_witness :
    ("A" ∈ get_modified natStored natLive
      ↔ modifiedAmendedB natStored natLive "A" = true) :=
  get_modified_iff_both_signals natStored natLive "A" (by decide)

/-- Counterexample to claim C4 as stated: every calendar call succeeds and
the live snapshot is unchanged between the runs, yet the first run skips the
new entry Y as a duplicate of the stored row X (same title and dates), then
retitles X in the modification phase.  The second run therefore computes
new = [Y] and, since no stored row matches the title of Y any more, performs
a calendar addition. -/
theorem run_idempotence_counterexample :
    get_new (run envC4 0 (initSt c4Stored)).stored envC4.live = ["Y"]
    ∧ countOkAdd (run envC4 1 (run envC4 0 (initSt c4Stored))).trace
        = countOkAdd (run envC4 0 (initSt c4Stored)).trace + 1 := by decide

/-- Claim C4 (amended): if every calendar call succeeds, the tables have
unique ids, and the first run skips no addition as a duplicate, then a
second run against the unchanged live snapshot computes
new = deleted = modified = empty and performs zero calendar mutations: it
only fetches once and writes the one unconditional save of the removal
phase. -/
theorem run_idempotent_without_skips (env : Env) (today today2 : Int) (s : St)
    (hok : ∀ n, ∃ e, env.addRes n = AddOutcome.ok e)
    (hexn : s.exn = false)
    (hndS : (keysR s.stored).Nodup)
    (hndL : (keysL env.live).Nodup)
    (hskip : countSkip (run env today s).trace = countSkip s.trace) :
    get_new (run env today s).stored env.live = []
    ∧ get_deleted (run env today s).stored env.live = []
    ∧ get_modified (run env today s).stored env.live = []
    ∧ run env today2 (run env today s)
        = { run env today s with fetchN := (run env today s).fetchN + 1, trace := (run env today s).trace ++ [Ev.save] } := by
  obtain ⟨hx, hiff, hfil, hnd3⟩ := run_char env today s hok hexn hndS hndL hskip
  have hnew : get_new (run env today s).stored env.live = [] := by
    rw [get_new, List.filter_eq_nil_iff]
    intro id hid
    obtain ⟨r, hr⟩ := Option.isSome_iff_exists.mp ((hiff id).mpr hid)
    rw [hr]
    simp
  have hdel : get_deleted (run env today s).stored env.live = [] := by
    rw [get_deleted, List.filter_eq_nil_iff]
    intro id hid
    have h1 : (findRow (run env today s).stored id).isSome = true :=
      (mem_keysR_iff_findRow_isSome _ _).mp hid
    obtain ⟨l, hl⟩ := Option.isSome_iff_exists.mp
      ((mem_keysL_iff_findLive_isSome _ _).mp ((hiff id).mp h1))
    rw [hl]
    simp
  have hmod : get_modified (run env today s).stored env.live = [] := by
    have hf : (run env today s).stored.filter
        (fun p => modifiedFilter p.2 (findLive env.live p.1)) = [] := by
      rw [List.filter_eq_nil_iff]
      intro p hp
      obtain ⟨id, r⟩ := p
      have hfind : findRow (run env today s).stored id = some r :=
        findRow_eq_of_mem_nodup hnd3 hp
      rw [hfil id r hfind]
      simp
    rw [get_modified, hf]
    rfl
  exact ⟨hnew, hdel, hmod, run_second_trivial env today2 (run env today s) hx hnew hdel hmod⟩

/-- Witness for the amended claim C4: an empty store against one live
entry, a successful first run, and a second run that only fetches and
saves. -/
theorem run_idempotent_without_skips_witness :
    get_new (run envOneNew 0 (initSt [])).stored envOneNew.live = []
    ∧ get_deleted (run envOneNew 0 (initSt [])).stored envOneNew.live = []
    ∧ get_modified (run envOneNew 0 (initSt [])).stored envOneNew.live = []
    ∧ run envOneNew 1 (run envOneNew 0 (initSt []))
        = { run envOneNew 0 (initSt []) with fetchN := (run envOneNew 0 (initSt [])).fetchN + 1, trace := (run envOneNew 0 (initSt [])).trace ++ [Ev.save] } :=
  run_idempotent_without_skips envOneNew 0 1 (initSt [])
    (fun _ => ⟨"e", rfl⟩) rfl (by decide) (by decide) (by decide)

/-- Counterexample to claim C5 as stated: `Database.remove_events` on a two
element list issues both calendar deletes and saves only once, after the
loop, so the persisted table falls two operations behind the calendar
mid-phase. -/
theorem remove_events_saves_once_counterexample :
    (remove_events envAllOk (initSt exStored2) ["A", "B"]).trace
      = [Ev.calDelete (some "e1") true, Ev.calDelete (some "e2") true, Ev.save]
    ∧ countSave (remove_events envAllOk (initSt exStored2) ["A", "B"]).trace = 1
    ∧ maxLag (remove_events envAllOk (initSt exStored2) ["A", "B"]).trace = 2
    ∧ ¬ maxLag (remove_events envAllOk (initSt exStored2) ["A", "B"]).trace ≤ 1 := by
  decide

/-- Claim C5 (amended): with all calendar calls succeeding,
`Database.add_events` saves right after every successful addition (lag at
most one, one save per added row), `Database.modify_events` saves once per
entry after its delete and add pair (lag at most two), but
`Database.remove_events` saves exactly once at the end of the phase with no
save inside the loop, so its persisted table can lag by the whole batch. -/
theorem phase_save_discipline (env : Env)
    (hok : ∀ n, ∃ e, env.addRes n = AddOutcome.ok e) :
    (∀ (s : St) (rows : List (String × LiveRow)),
        ∃ d, (add_events_loop env s rows).trace = s.trace ++ d
          ∧ maxLag d ≤ 1 ∧ countSave d = countOkAdd d)
    ∧ (∀ (s : St) (ids : List String) (c : LiveTable), s.exn = false
        → (∀ i ∈ ids, (findLive c i).isSome = true ∧ i ∈ keysR s.stored)
        → ∃ d, (modify_events env s ids c).trace = s.trace ++ d
            ∧ maxLag d ≤ 2 ∧ countSave d = ids.length)
    ∧ (∀ (s : St) (ids : List String), s.exn = false → ids.Nodup
        → (∀ i ∈ ids, i ∈ keysR s.stored)
        → ∃ d, (remove_events env s ids).trace = s.trace ++ (d ++ [Ev.save])
            ∧ countSave d = 0 ∧ countDel d = ids.length) := by
  refine ⟨?_, ?_, ?_⟩
  · intro s rows
    exact add_events_loop_lag env rows hok s
  · intro s ids c hexn hpre
    obtain ⟨d, htr, _, hsave, hlag, _, _⟩ := modify_events_char env s ids c hexn hok hpre
    exact ⟨d, htr, hlag, hsave⟩
  · intro s ids hexn hnd hmem
    obtain ⟨d, htr, _, hsave, hdel, _, _⟩ := remove_events_char env s ids hexn hnd hmem
    exact ⟨d, htr, hsave, hdel⟩

/-- Witness for the amended claim C5 at a concrete removal batch. -/
theorem phase_save_discipline_witness :
    ∃ d, (remove_events envAllOk (initSt exStored2) ["A", "B"]).trace
        = (initSt exStored2).trace ++ (d ++ [Ev.save])
      ∧ countSave d = 0 ∧ countDel d = ["A", "B"].length :=
  (phase_save_discipline envAllOk (fun _ => ⟨"e", rfl⟩)).2.2
    (initSt exStored2) ["A", "B"] rfl (by decide) (by decide)

/-- Counterexample to claim C6 as stated: in `Database.modify_events` a
raised calendar add is not caught, so the first entry aborts the phase; the
second entry never even gets its calendar delete, and nothing counts the
failure. -/
theorem modify_events_abort_counterexample :
    (modify_events envAddErr (initSt exStored2) ["A", "B"] exLive2).exn = true
    ∧ (modify_events envAddErr (initSt exStored2) ["A", "B"] exLive2).trace
        = [Ev.calDelete (some "e1") true, Ev.calAddFail]
    ∧ countDel (modify_events envAddErr (initSt exStored2) ["A", "B"] exLive2).trace = 1
    ∧ (modify_events envAddErr (initSt exStored2) ["A", "B"] exLive2).errC = 0 := by
  decide

/-- Claim C6 (amended): `Database.add_events` catches, counts and survives
every per-entry failure and processes the whole list;
`Database.remove_events` survives calendar delete failures because the
delete call swallows them (though nothing counts them); but in
`Database.modify_events` a raised calendar add propagates, aborting the
remaining entries of the phase. -/
theorem phase_error_isolation (env : Env) :
    (∀ (s : St) (rows : List (String × LiveRow)),
        (add_events_loop env s rows).exn = s.exn
        ∧ ∃ d, (add_events_loop env s rows).trace = s.trace ++ d
            ∧ countSkip d + countFailAdd d + countOkAdd d = rows.length
            ∧ (add_events_loop env s rows).errC = s.errC + countFailAdd d)
    ∧ (∀ (s : St) (ids : List String), s.exn = false → ids.Nodup
        → (∀ i ∈ ids, i ∈ keysR s.stored)
        → (remove_events env s ids).exn = false
          ∧ ∃ d, (remove_events env s ids).trace = s.trace ++ (d ++ [Ev.save])
              ∧ countDel d = ids.length)
    ∧ (∀ (s : St) (id : String) (rest : List String) (c : LiveTable) (l : LiveRow) (r : Row),
        s.exn = false → findLive c id = some l → findRow s.stored id = some r
        → env.addRes s.addN = AddOutcome.err
        → modify_events env s (id :: rest) c = modify_events env s [id] c
          ∧ (modify_events env s [id] c).exn = true) := by
  refine ⟨?_, ?_, ?_⟩
  · intro s rows
    obtain ⟨d, htr, _, hex, herr, _, hcnt, _, _⟩ := add_events_loop_master env rows s
    exact ⟨hex, d, htr, hcnt, herr⟩
  · intro s ids hexn hnd hmem
    obtain ⟨d, htr, hex, _, hdel, _, _⟩ := remove_events_char env s ids hexn hnd hmem
    exact ⟨hex, d, htr, hdel⟩
  · intro s id rest c l r hexn hl hr ha
    constructor
    · rw [show modify_events env s (id :: rest) c = modify_events_loop env s c (id :: rest)
        from rfl]
      rw [show modify_events env s [id] c = modify_events_loop env s c [id] from rfl]
      rw [modify_loop_err hexn hl hr ha, modify_loop_err hexn hl hr ha]
    · rw [show modify_events env s [id] c = modify_events_loop env s c [id] from rfl]
      rw [modify_loop_err hexn hl hr ha]

/-- Witness for the amended claim C6: the aborting modify phase at a
concrete two entry list. -/
theorem phase_error_isolation_witness :
    modify_events envAddErr (initSt exStored2) ["A", "B"] exLive2
      = modify_events envAddErr (initSt exStored2) ["A"] exLive2
    ∧ (modify_events envAddErr (initSt exStored2) ["A"] exLive2).exn = true :=
  (phase_error_isolation envAddErr).2.2 (initSt exStored2) "A" ["B"] exLive2
    (mkLive 5 "U1") exRow1 rfl (by decide) (by decide) rfl

/-- Claim C7: a failing calendar delete is swallowed inside
`CalendarClient.delete_event` (logged, never re-raised), so the stored table
and the exception state of `Database.remove_events` and
`Database.modify_events` do not depend on delete outcomes at all; a removed
id loses its snapshot row regardless, and a modified id has its row replaced
with the live row and the new handle regardless. -/
theorem delete_failure_swallowed (env1 env2 : Env)
    (haddRes : env1.addRes = env2.addRes) :
    (∀ (s : St) (ids : List String),
        (remove_events env1 s ids).stored = (remove_events env2 s ids).stored
        ∧ (remove_events env1 s ids).exn = (remove_events env2 s ids).exn)
    ∧ (∀ (s : St) (ids : List String) (c : LiveTable),
        (modify_events env1 s ids c).stored = (modify_events env2 s ids c).stored
        ∧ (modify_events env1 s ids c).exn = (modify_events env2 s ids c).exn)
    ∧ (∀ (s : St) (ids : List String) (id : String), s.exn = false → ids.Nodup
        → (∀ i ∈ ids, i ∈ keysR s.stored) → id ∈ ids
        → (remove_events env1 s ids).exn = false
          ∧ findRow (remove_events env1 s ids).stored id = none)
    ∧ (∀ (s : St) (ids : List String) (c : LiveTable) (id : String), s.exn = false
        → (∀ n, ∃ e, env1.addRes n = AddOutcome.ok e)
        → (∀ i ∈ ids, (findLive c i).isSome = true ∧ i ∈ keysR s.stored) → id ∈ ids
        → ∃ l e, findLive c id = some l
            ∧ findRow (modify_events env1 s ids c).stored id = some (toRow l (some e))) := by
  refine ⟨?_, ?_, ?_, ?_⟩
  · intro s ids
    exact remove_events_delOk_irrelevant env1 env2 s ids
  · intro s ids c
    exact modify_loop_delOk_irrelevant env1 env2 c ids haddRes s s rfl rfl rfl rfl
  · intro s ids id hexn hnd hmem hid
    obtain ⟨d, _, hex, _, _, hfind, _⟩ := remove_events_char env1 s ids hexn hnd hmem
    refine ⟨hex, ?_⟩
    rw [hfind id, if_pos hid]
  · intro s ids c id hexn hok hpre hid
    obtain ⟨d, _, _, _, _, _, hmem2⟩ := modify_events_char env1 s ids c hexn hok hpre
    exact hmem2 id hid

/-- Witness for claim C7: with every delete failing, removal still drops
the row without raising, and modification still replaces the row. -/
theorem delete_failure_swallowed_witness :
    ((remove_events envDelFail (initSt exStored2) ["A", "B"]).exn = false
      ∧ findRow (remove_events envDelFail (initSt exStored2) ["A", "B"]).stored "A" = none)
    ∧ (∃ l e, findLive exLive2 "B" = some l
        ∧ findRow (modify_events envDelFail (initSt exStored2) ["B"] exLive2).stored "B"
            = some (toRow l (some e))) :=
  ⟨(delete_failure_swallowed envDelFail envAllOk rfl).2.2.1
      (initSt exStored2) ["A", "B"] "A" rfl (by decide) (by decide) (by decide),
   (delete_failure_swallowed envDelFail envAllOk rfl).2.2.2
      (initSt exStored2) ["B"] exLive2 "B" rfl (fun _ => ⟨"e", rfl⟩)
      (by decide) (by decide)⟩

/-- Claim C8: in the command built by `CalendarClient.add_event`, start and
end times both exactly 00:00:00 make the event all-day with the end date
advanced by one day; otherwise an end time of exactly 00:00:00 is coerced
to 23:59:59 before the end datetime is built. -/
theorem add_event_allday_and_end_coercion (title : List Char) (sd ed : Int)
    (st et : String) (url desc : List Char) :
    (st = "00:00:00" ∧ et = "00:00:00"
      → (add_event_cmd title sd ed st et url desc).allday = true
        ∧ (add_event_cmd title sd ed st et url desc).endDay = ed + 1)
    ∧ (¬ (st = "00:00:00" ∧ et = "00:00:00") → et = "00:00:00"
      → (add_event_cmd title sd ed st et url desc).endTime = "23:59:59"
        ∧ (add_event_cmd title sd ed st et url desc).allday = false) := by
  constructor
  · intro h
    rw [add_event_cmd, if_pos h]
    exact ⟨rfl, rfl⟩
  · intro h h2
    rw [add_event_cmd, if_neg h]
    rw [show (if et = "00:00:00" then "23:59:59" else et) = "23:59:59" by rw [if_pos h2]]
    exact ⟨rfl, rfl⟩

/-- Witness for claim C8 at concrete times. -/
theorem add_event_allday_and_end_coercion_witness :
    ((add_event_cmd ['T'] 10 10 "00:00:00" "00:00:00" [] []).allday = true
      ∧ (add_event_cmd ['T'] 10 10 "00:00:00" "00:00:00" [] []).endDay = 10 + 1)
    ∧ ((add_event_cmd ['T'] 10 12 "09:00:00" "00:00:00" [] []).endTime = "23:59:59"
      ∧ (add_event_cmd ['T'] 10 12 "09:00:00" "00:00:00" [] []).allday = false) :=
  ⟨(add_event_allday_and_end_coercion ['T'] 10 10 "00:00:00" "00:00:00" [] []).1
      ⟨rfl, rfl⟩,
   (add_event_allday_and_end_coercion ['T'] 10 12 "09:00:00" "00:00:00" [] []).2
      (by decide) rfl⟩

/-- Counterexample to claim C9 as stated: `applescript_escape` deletes a
carriage return instead of collapsing it to a space, and eats a literal
backslash-n pair (turning it into one space) instead of escaping the
backslash, so the function the claim describes disagrees with the code. -/
theorem applescript_escape_counterexample :
    applescript_escape 900 ['a', '\r', 'b'] = ['a', 'b']
    ∧ claimEscape 900 ['a', '\r', 'b'] = ['a', ' ', 'b']
    ∧ applescript_escape 900 ['a', '\r', 'b'] ≠ claimEscape 900 ['a', '\r', 'b']
    ∧ applescript_escape 900 ['\\', 'n'] = [' ']
    ∧ claimEscape 900 ['\\', 'n'] = ['\\', '\\', 'n'] := by decide

/-- Claim C9 (amended): `applescript_escape` equals the per-character
description: truncate inputs over the bound with a three dot marker, turn
every literal backslash-n pair and every newline into one space, delete
every carriage return, then double every backslash and escape every double
quote; consequently the result has no raw newline, no carriage return, and
no unescaped double quote. -/
theorem applescript_escape_spec (maxLength : Nat) (s : List Char) :
    applescript_escape maxLength s = escSpec (collapseSpec (truncatePy maxLength s))
    ∧ '\n' ∉ applescript_escape maxLength s
    ∧ '\r' ∉ applescript_escape maxLength s
    ∧ hasUnescapedQuote (applescript_escape maxLength s) = false := by
  have h1 : applescript_escape maxLength s
      = escSpec (collapseSpec (truncatePy maxLength s)) := by
    unfold applescript_escape
    rw [collapse_stages, escape_stages]
  refine ⟨h1, ?_, ?_, ?_⟩
  · rw [h1]
    exact not_mem_escSpec (by decide) (by decide) (not_mem_collapseSpec (Or.inl rfl) _)
  · rw [h1]
    exact not_mem_escSpec (by decide) (by decide) (not_mem_collapseSpec (Or.inr rfl) _)
  · rw [h1]
    exact hasUnescapedQuote_escSpec _

/-- Witness for the amended claim C9 at a concrete string. -/
theorem applescript_escape_spec_witness :
    applescript_escape 900 ['a', '\n', '\x22']
      = escSpec (collapseSpec (truncatePy 900 ['a', '\n', '\x22']))
    ∧ '\n' ∉ applescript_escape 900 ['a', '\n', '\x22']
    ∧ '\r' ∉ applescript_escape 900 ['a', '\n', '\x22']
    ∧ hasUnescapedQuote (applescript_escape 900 ['a', '\n', '\x22']) = false :=
  applescript_escape_spec 900 ['a', '\n', '\x22']

/-- Counterexample to claim C10 as stated: a present but empty title passes
through `Database._get_card_for_calendar` unchanged; the fallback literal is
the getattr default and fires only when the attribute is missing. -/
theorem card_title_empty_counterexample :
    card_title (some (some "")) = some ""
    ∧ card_title (some (some "")) ≠ some "Untitled Event" := by decide

/-- Claim C10 (amended): the tuple built by
`Database._get_card_for_calendar` carries the fallback title Untitled Event
only when the series lacks the title attribute entirely; a present title
value, even None (as produced by `Card` for an empty Notion title list) or
the empty string, is passed through unchanged. -/
theorem card_title_fallback_only_missing_attribute :
    card_title none = some "Untitled Event"
    ∧ (∀ v : Option String, card_title (some v) = v)
    ∧ card_title (some (cardTitleFromNotion [])) = none
    ∧ card_title (some (some "")) = some "" :=
  ⟨rfl, fun _ => rfl, rfl, rfl⟩
